import Mathlib

/-!
Verification of the download-orchestration core in
`src/music_downloader/core/downloader.py`.

The development shallowly embeds the module: the pure utilities
(`_fmt_bytes`, `_fmt_eta`) become Lean functions on `ℚ` (Python floats are
modelled as exact rationals; every division performed by the code here is by
a power of two or is only compared against bounds, so the idealisation is
faithful for the quantities the properties mention), the progress hook
`DownloadManager._on_hook` becomes a function from the job's cooperative
flags and the structured event dictionary to the list of emitted signals,
the runner `DownloadManager._run_job` becomes a function from an
environment describing the behaviour of the external pipeline (hook events,
pipeline failures, cancel requests interleaved into the event stream) to
the emitted signals plus the manager-state cleanup, and the queue processor
becomes a labelled transition system over the manager's pending queue /
running set.  Exceptions are modelled as `Option String` results carrying
`str(e)`.
-/

/- Batteries marks the `Rat` field operations `@[irreducible]`; restore
unfolding so that concrete runs of the embedded code evaluate by `decide`. -/
set_option allowUnsafeReducibility true
attribute [semireducible] Rat.mul Rat.inv Rat.div Rat.add Rat.sub Rat.neg Rat.ofScientific

/-- Python `int()` applied to a float: truncation toward zero. -/
def pyInt (q : ℚ) : ℤ := if 0 ≤ q then ⌊q⌋ else -⌊-q⌋

/-- Python truthiness of an optional number: `None` and `0` are falsy. -/
def qTruthy : Option ℚ → Option ℚ
  | some x => if x = 0 then none else some x
  | none => none

/-- `d.get(a) or d.get(b) or 0` on optional numbers, with Python truthiness. -/
def pyOr2 (a b : Option ℚ) : ℚ :=
  match qTruthy a with
  | some x => x
  | none => (qTruthy b).getD 0

/-- Python `p in s` substring test. -/
def strContains (s p : String) : Bool :=
  (List.range (s.length + 1)).any fun i => (s.drop i).take p.length == p

/-- Python `s.lower()` (ASCII is all the code compares against). -/
def strLower (s : String) : String := ⟨s.data.map Char.toLower⟩

/-- Round to the nearest integer, ties to even: the rounding Python's
`format(v, ".1f")` applies to the (here exactly represented) value `v*10`. -/
def roundHalfEven (q : ℚ) : ℤ :=
  let f := ⌊q⌋
  let r := q - (f : ℚ)
  if r < 1/2 then f else if 1/2 < r then f + 1 else if f % 2 = 0 then f else f + 1

/-- Digits of a non-negative number of tenths, with one decimal place. -/
def renderTenths (t : ℤ) : String := toString (t / 10) ++ "." ++ toString (t % 10)

/-- Python `f"{v:.1f}"`. -/
def fmt1 (v : ℚ) : String :=
  let t := roundHalfEven (v * 10)
  if t < 0 then "-" ++ renderTenths (-t) else renderTenths t

/-- The `units` list of `_fmt_bytes`, read at index `i` (capped at TB). -/
def unitName : ℕ → String
  | 0 => "B"
  | 1 => "KB"
  | 2 => "MB"
  | 3 => "GB"
  | _ => "TB"

/-- The `while v >= 1024 and i < len(units) - 1` loop of `_fmt_bytes`,
unrolled on the fuel `4 - i` (the guard `i < 4` makes this exact). -/
def scaleGo : ℕ → ℚ → ℕ → ℚ × ℕ
  | 0, v, i => (v, i)
  | f + 1, v, i => if 1024 ≤ v ∧ i < 4 then scaleGo f (v / 1024) (i + 1) else (v, i)

def scaleLoop (v : ℚ) (i : ℕ) : ℚ × ℕ := scaleGo (4 - i) v i

/-- `_fmt_bytes` (downloader.py lines 16-25): empty string on a falsy input,
otherwise scale by 1024-based units and print with one decimal place. -/
def _fmt_bytes : Option ℚ → String
  | none => ""
  | some x =>
      if x = 0 then "" else
        let p := scaleLoop x 0
        fmt1 p.1 ++ " " ++ unitName p.2

/-- Python `f"{i:02d}"` for the minute/second fields. -/
def pad2 (i : ℤ) : String := if 0 ≤ i ∧ i < 10 then "0" ++ toString i else toString i

/-- `_fmt_eta` (downloader.py lines 28-36). -/
def _fmt_eta : Option ℚ → String
  | none => "--:--"
  | some q =>
      let s0 := pyInt q
      let m0 := Int.fdiv s0 60
      let s1 := Int.fmod s0 60
      let h := Int.fdiv m0 60
      let m1 := Int.fmod m0 60
      if h ≠ 0 then toString h ++ ":" ++ pad2 m1 ++ ":" ++ pad2 s1
      else pad2 m1 ++ ":" ++ pad2 s1

/-! ## Job model (`DownloadJob`, downloader.py lines 41-81)

The Qt signal machinery is modelled as a list of emitted `Emission`s; the
cooperative pause/cancel `threading.Event` flags become booleans threaded
through the run (the cancel flag is set by `request_cancel`, which appears
as an explicit event in the pipeline trace, making its one-way monotone
behaviour true by construction).  `uuid.uuid4()` is modelled as a
fresh-identifier counter supplied by the manager (the code relies on the
ids being distinct, which is what the counter provides). -/

structure Job where
  id : ℕ
  url : Option String
  title : String
  subtitle : String
  format : String
  bitrate_kbps : ℤ
  video_quality : String
  audio_quality : String
  outdir : String
  max_retries : ℕ
  last_progress_time : ℚ
deriving DecidableEq

/-- One signal emission of a `DownloadJob`.  The `t` argument of `progress`
is ghost instrumentation recording the wall-clock instant `time.time()` at
which the emission happened (the run start for the initial emission, the
hook invocation time for hook-driven ones); it is not part of the signal
payload in the source, and exists to state timing properties. -/
inductive Emission where
  | progress (t : ℚ) (pct : ℤ) (speed eta size : String)
  | status (msg : String)
  | done (path : String)
  | error (msg : String)
deriving DecidableEq

/-! ## Progress hook (`DownloadManager._on_hook`, downloader.py lines 409-443) -/

/-- The fields of the structured event dictionary `d` passed by the
pipeline to the progress hook, plus `t`, the value `time.time()` returns
during this invocation. -/
structure HookEvent where
  status : Option String
  downloaded_bytes : Option ℚ
  total_bytes : Option ℚ
  total_bytes_estimate : Option ℚ
  speed : Option ℚ
  eta : Option ℚ
  t : ℚ
deriving DecidableEq

/-- One hook invocation together with the environment's behaviour at the
cooperative section: `pauseIters` is the number of completed iterations of
the `while job.is_paused` poll loop before the pause flag is cleared,
`reqInPause` records that `request_cancel` arrives during the pause so that
the next tick's check observes it, and `fault` injects an exception raised
by a slot connected to `sig_progress.emit` (the only call in the hook body
that executes foreign code and can therefore raise). -/
structure HookCtx where
  ev : HookEvent
  pauseIters : ℕ
  reqInPause : Bool
  fault : Option String
deriving DecidableEq

/-- `downloaded = d.get("downloaded_bytes") or 0`. -/
def dRes (ev : HookEvent) : ℚ := (qTruthy ev.downloaded_bytes).getD 0

/-- `total = d.get("total_bytes") or d.get("total_bytes_estimate") or 0`. -/
def tRes (ev : HookEvent) : ℚ := pyOr2 ev.total_bytes ev.total_bytes_estimate

/-- Result of one `_on_hook` call: the emissions that happened, the job's
`_last_progress_time` afterwards, the cancel flag afterwards, the exception
that propagated out of the hook (aborting the pipeline) if any, the
swallowed-and-logged exception if any, and whether any cooperative
checkpoint inside observed the cancel flag set. -/
structure HookOut where
  ems : List Emission
  lastT : ℚ
  cancel : Bool
  raised : Option String
  logged : Option String
  saw : Bool
deriving DecidableEq

/-- The body of the `try` block of `_on_hook`: cancel check, pause poll
loop, then dispatch on the event's status.  Returns the emissions, the new
`_last_progress_time`, the new cancel flag, the exception raised inside (if
any), and whether the cancel flag was observed set. -/
def hookBody (cancel : Bool) (lastT : ℚ) (c : HookCtx) :
    List Emission × ℚ × Bool × Option String × Bool :=
  if cancel then
    ([], lastT, true, some ("User canceled"), true)
  else
    let pauses := List.replicate c.pauseIters (Emission.status ("Paused…"))
    if c.reqInPause then
      (pauses ++ [Emission.status ("Paused…")], lastT, true, some ("User canceled"), true)
    else
      match c.ev.status with
      | some s =>
          if s = "downloading" then
            if c.ev.t - lastT < 1/4 then (pauses, lastT, false, none, false)
            else
              let downloaded := dRes c.ev
              let total := tRes c.ev
              let pct := if total ≠ 0 then pyInt (downloaded * 100 / total) else 0
              let speed := match qTruthy c.ev.speed with
                | some sp => _fmt_bytes (some sp) ++ "/s"
                | none => "--"
              let eta := _fmt_eta c.ev.eta
              let size := _fmt_bytes (some total)
              match c.fault with
              | some m => (pauses, c.ev.t, false, some m, false)
              | none =>
                  (pauses ++ [Emission.progress c.ev.t pct speed eta size], c.ev.t, false,
                    none, false)
          else if s = "finished" then
            (pauses ++ [Emission.status ("Converting…")], lastT, false, none, false)
          else (pauses, lastT, false, none, false)
      | none => (pauses, lastT, false, none, false)

/-- `_on_hook`: the `try` body wrapped in the
`except Exception as e: if "canceled" in str(e).lower(): raise` handler. -/
def onHook (cancel : Bool) (lastT : ℚ) (c : HookCtx) : HookOut :=
  let r := hookBody cancel lastT c
  match r.2.2.2.1 with
  | some m =>
      if strContains (strLower m) ("canceled") then
        { ems := r.1, lastT := r.2.1, cancel := r.2.2.1, raised := some m, logged := none,
          saw := r.2.2.2.2 }
      else
        { ems := r.1, lastT := r.2.1, cancel := r.2.2.1, raised := none, logged := some m,
          saw := r.2.2.2.2 }
  | none =>
      { ems := r.1, lastT := r.2.1, cancel := r.2.2.1, raised := none, logged := none,
        saw := r.2.2.2.2 }

/-! ## Runner (`DownloadManager._run_job` / `_execute_download`,
downloader.py lines 218-271 and 273-406)

`_execute_download` invokes the external pipeline, which calls the progress
hook on each structured event and finally either raises or returns the
extraction metadata (from which the final path is computed and `sig_done`
emitted).  The pipeline's behaviour during one attempt is an environment:
the interleaved sequence of hook invocations and `request_cancel` arrivals,
and the terminal outcome (a pipeline exception, or success).  A cancel
request arriving between the pipeline's raise and the `except` handler's
flag check is `reqBeforeCatch`.  `name` in `RunEnv` is the filename stem
the pipeline resolves from the output template
`%(title)s [%(id)s].%(ext)s`; the final path is it under `job.outdir` with
the format's suffix. -/

inductive PipeEvt where
  | hk (c : HookCtx)
  | cancelReq
deriving DecidableEq

structure AttemptEnv where
  evts : List PipeEvt
  fail : Option String
  reqBeforeCatch : Bool

structure RunEnv where
  t0 : ℚ
  name : String
  atts : ℕ → AttemptEnv

/-- `Path(ydl.prepare_filename(info)).with_suffix(".mp3" if ... else ".mp4")`
under the output template rooted at `job.outdir`. -/
def finalPath (job : Job) (name : String) : String :=
  job.outdir ++ "/" ++ name ++ (if job.format = "mp3" then ".mp3" else ".mp4")

/-- The pipeline driving the hook: processes the interleaved events,
aborting as soon as a hook invocation lets an exception propagate.
Returns (emissions, cancel flag, `_last_progress_time`, exception, saw). -/
def execEvts : Bool → ℚ → List PipeEvt → List Emission × Bool × ℚ × Option String × Bool
  | cancel, lastT, [] => ([], cancel, lastT, none, false)
  | _cancel, lastT, PipeEvt.cancelReq :: rest => execEvts true lastT rest
  | cancel, lastT, PipeEvt.hk c :: rest =>
      let h := onHook cancel lastT c
      match h.raised with
      | some m => (h.ems, h.cancel, h.lastT, some m, h.saw)
      | none =>
          let r := execEvts h.cancel h.lastT rest
          (h.ems ++ r.1, r.2.1, r.2.2.1, r.2.2.2.1, h.saw || r.2.2.2.2)

/-- One call of `self._execute_download(job)`: run the pipeline events; if
no exception reached the pipeline, a pipeline failure may still be raised
(`fail`), otherwise the download succeeded and `sig_done` is emitted with
the final path. -/
def execAttempt (job : Job) (name : String) (cancel : Bool) (lastT : ℚ) (a : AttemptEnv) :
    List Emission × Bool × ℚ × Option String × Bool :=
  let r := execEvts cancel lastT a.evts
  match r.2.2.2.1 with
  | some m => (r.1, r.2.1 || a.reqBeforeCatch, r.2.2.1, some m, r.2.2.2.2)
  | none =>
      match a.fail with
      | some m => (r.1, r.2.1 || a.reqBeforeCatch, r.2.2.1, some m, r.2.2.2.2)
      | none => (r.1 ++ [Emission.done (finalPath job name)], r.2.1, r.2.2.1, none, r.2.2.2.2)

/-- `str` of a retryable-keyword match:
`any(keyword in error_msg for keyword in [...])` on the lowercased text. -/
def isRetryable (m : String) : Bool :=
  ["timeout", "connection", "network", "unavailable",
   "temporary", "throttled", "503", "502", "429"].any
    fun k => strContains (strLower m) k

/-- The `for attempt in range(job.max_retries)` retry loop of `_run_job`
(lines 224-258) together with the post-loop
`if last_error: job.sig_error.emit(str(last_error))` (lines 255-258).
Structural recursion on the remaining number of iterations.  Returns the
emissions of the loop, the number of attempts executed, and whether any
cooperative checkpoint observed the cancel flag set. -/
def runLoop (job : Job) (env : RunEnv) :
    ℕ → ℕ → Bool → ℚ → Option String → List Emission × ℕ × Bool
  | 0, _attempt, _cancel, _lastT, lastErr =>
      ((match lastErr with
        | some m => [Emission.error m]
        | none => []), 0, false)
  | remaining + 1, attempt, cancel, lastT, _lastErr =>
      let pre := if 0 < attempt then
          [Emission.status ("Retrying (" ++ toString attempt ++ "/" ++
            toString job.max_retries ++ ")...")]
        else []
      let r := execAttempt job env.name cancel lastT (env.atts attempt)
      match r.2.2.2.1 with
      | none => (pre ++ r.1, 1, r.2.2.2.2)
      | some m =>
          if r.2.1 then
            (pre ++ r.1 ++ [Emission.error ("Canceled by user")], 1, true)
          else if isRetryable m ∧ attempt < job.max_retries - 1 then
            let rec' := runLoop job env remaining (attempt + 1) r.2.1 r.2.2.1 (some m)
            (pre ++ r.1 ++ rec'.1, rec'.2.1 + 1, r.2.2.2.2 || rec'.2.2)
          else
            (pre ++ r.1 ++ [Emission.error m], 1, r.2.2.2.2)

/-- Result of one `_run_job` call: the emitted signals, the running set
after the `finally` cleanup, whether the scheduler wake event was set, the
number of attempts executed, and whether the cancel flag was observed. -/
structure RunResult where
  ems : List Emission
  active : Finset ℕ
  wake : Bool
  attemptsMade : ℕ
  saw : Bool

/-- `DownloadManager._run_job` (lines 218-271): initial status and
zero-progress emissions, the retry loop, and the unconditional `finally`
cleanup which removes the job from the running set and sets the scheduler
wake event.  `cancel0` is the cancel flag's state when the run starts
(true when `request_cancel` happened while the job was still queued). -/
def runJob (job : Job) (env : RunEnv) (cancel0 : Bool) (active : Finset ℕ) : RunResult :=
  let init := [Emission.status ("Starting…"),
    Emission.progress env.t0 0 ("--") ("--:--") ("--")]
  let r := runLoop job env job.max_retries 0 cancel0 job.last_progress_time none
  { ems := init ++ r.1, active := active.erase job.id, wake := true,
    attemptsMade := r.2.1, saw := r.2.2 }

/-! ## Manager façade (`DownloadManager`, downloader.py lines 85-150) -/

/-- Python truthiness of an optional string: `None` and `""` are falsy. -/
def sTruthy : Option String → Option String
  | some s => if s = "" then none else some s
  | none => none

/-- `item.get(a) or item.get(b)` on optional strings. -/
def pyOrS (a b : Option String) : Option String :=
  match sTruthy a with
  | some x => some x
  | none => sTruthy b

/-- `item.get(k) or default` on optional strings. -/
def getOrS (a : Option String) (d : String) : String := (sTruthy a).getD d

/-- Python `s.upper()` (`fmt.upper()` in `create_job`). -/
def strUpper (s : String) : String := ⟨s.data.map Char.toUpper⟩

/-- The search-result dictionary `item` passed to `create_job`, restricted
to the keys the method reads. -/
structure Item where
  title : Option String
  channel : Option String
  duration_str : Option String
  webpage_url : Option String
  url : Option String
deriving DecidableEq

/-- The manager state the claims touch: the configured output directory and
concurrency, the identifier map `_jobs`, and the fresh-identifier counter
standing in for `uuid.uuid4()`. -/
structure Manager where
  download_dir : String
  concurrent : ℕ
  jobs : List (ℕ × Job)
  nextId : ℕ

/-- `DownloadManager.__init__` (the fields above; `concurrent = max(1, int(concurrent))`). -/
def mkManager (dir : String) (concurrent : ℕ) : Manager :=
  { download_dir := dir, concurrent := max 1 concurrent, jobs := [], nextId := 0 }

/-- `set_download_dir` (lines 114-117; the `mkdir` side effect is outside
the model). -/
def set_download_dir (m : Manager) (path : String) : Manager :=
  { m with download_dir := path }

/-- `set_concurrency` (lines 119-121). -/
def set_concurrency (m : Manager) (n : ℕ) : Manager :=
  { m with concurrent := max 1 n }

/-- Lookup in the identifier map `_jobs`. -/
def lookupJob (jobs : List (ℕ × Job)) (i : ℕ) : Option Job :=
  (jobs.find? fun p => p.1 == i).map Prod.snd

/-- `create_job` (lines 123-142).  `vq`/`aq` being `none` models a caller
omitting the optional arguments, which Python defaults to `"best"`.  Note
the method performs no validation: a missing `webpage_url`/`url` simply
yields `url = None` on the job.  `self._download_dir` is read here, at
creation time (line 138), before the lock is taken at line 140. -/
def create_job (m : Manager) (item : Item) (fmt : String) (bitrate_kbps : ℤ)
    (vq aq : Option String) : Job × Manager :=
  let video_quality := vq.getD ("best")
  let audio_quality := aq.getD ("best")
  let title := getOrS item.title ("Untitled")
  let channel := getOrS item.channel ("")
  let duration := getOrS item.duration_str ("")
  let quality_str := if video_quality ≠ "best" then video_quality ++ "p" else "Best"
  let subtitle := channel ++ " • " ++ duration ++ " • " ++ strUpper fmt ++ " • " ++ quality_str
  let job : Job :=
    { id := m.nextId, url := pyOrS item.webpage_url item.url, title := title,
      subtitle := subtitle, format := fmt, bitrate_kbps := bitrate_kbps,
      video_quality := video_quality, audio_quality := audio_quality,
      outdir := m.download_dir, max_retries := 3, last_progress_time := 0 }
  (job, { m with jobs := (job.id, job) :: m.jobs, nextId := m.nextId + 1 })

/-- The manager's id-freshness invariant: every registered id was allocated
by the counter. -/
def Manager.wf (m : Manager) : Prop := ∀ p ∈ m.jobs, p.1 < m.nextId

/-! ## Queue processor (`submit` / `_start_queue_processor` / `_start_job`,
downloader.py lines 144-193, and the `finally` removal at 260-271)

A labelled transition system over the manager's shared queue state, for a
fixed concurrency limit `N`.  `submit` appends to `_pending_jobs` under the
lock.  The single queue-processor thread pops the queue head in one
critical section (`pop`) and registers the popped job in `_active_threads`
in a second one inside `_start_job` (`start`); because the processor is one
sequential thread, at most one popped job is in flight between the two
critical sections (`dispatching`).  A finishing job's `finally` block
removes it from the running set (`finish`).  `started` and `submitted` are
ghost histories recording the order of admissions and submissions. -/

structure SchedSt where
  pending : List ℕ
  dispatching : Option ℕ
  running : Finset ℕ
  started : List ℕ
  submitted : List ℕ
deriving DecidableEq

def schedInit : SchedSt :=
  { pending := [], dispatching := none, running := ∅, started := [], submitted := [] }

inductive SchedStep (N : ℕ) : SchedSt → SchedSt → Prop
  | submit (s : SchedSt) (j : ℕ) :
      SchedStep N s { s with pending := s.pending ++ [j], submitted := s.submitted ++ [j] }
  | pop (s : SchedSt) (j : ℕ) (rest : List ℕ) :
      s.dispatching = none → s.running.card < N → s.pending = j :: rest →
      SchedStep N s { s with pending := rest, dispatching := some j }
  | start (s : SchedSt) (j : ℕ) :
      s.dispatching = some j →
      SchedStep N s
        { s with dispatching := none, running := insert j s.running, started := s.started ++ [j] }
  | finish (s : SchedSt) (j : ℕ) :
      j ∈ s.running →
      SchedStep N s { s with running := s.running.erase j }

inductive SchedReach (N : ℕ) : SchedSt → Prop
  | init : SchedReach N schedInit
  | step {s s' : SchedSt} : SchedReach N s → SchedStep N s s' → SchedReach N s'

/-! ## Observables and predicates used by the statements -/

/-- Whether an emission is on the `sig_error` channel. -/
def isErrB : Emission → Bool
  | Emission.error _ => true
  | _ => false

/-- Whether an emission is on the `sig_done` channel. -/
def isDoneB : Emission → Bool
  | Emission.done _ => true
  | _ => false

/-- The `sig_progress` emissions of a trace: (instrumented time, percent). -/
def progressOf : List Emission → List (ℚ × ℤ) :=
  List.filterMap fun e =>
    match e with
    | Emission.progress t p _ _ _ => some (t, p)
    | _ => none

/-- `throttled L ps M`: starting from `_last_progress_time = L`, the
progress emissions `ps` are each at least a quarter second after the
previous one (and after `L`), and `M` is an upper bound for the final
`_last_progress_time` reached, itself at least every emission time. -/
def throttled : ℚ → List (ℚ × ℤ) → ℚ → Prop
  | L, [], M => L ≤ M
  | L, p :: ps, M => L + 1/4 ≤ p.1 ∧ throttled p.1 ps M

/-- A hook event whose reported byte counts are coherent: non-negative, and
the downloaded count does not exceed the reported total when one exists. -/
def GoodEv (ev : HookEvent) : Prop :=
  0 ≤ dRes ev ∧ 0 ≤ tRes ev ∧ (tRes ev ≠ 0 → dRes ev ≤ tRes ev)

instance (ev : HookEvent) : Decidable (GoodEv ev) := by
  unfold GoodEv; infer_instance

/-- Every hook invocation of the attempt carries a coherent event. -/
def attGoodB (a : AttemptEnv) : Bool :=
  a.evts.all fun e =>
    match e with
    | PipeEvt.hk c => decide (GoodEv c.ev)
    | PipeEvt.cancelReq => true

/-- Pipeline events during which no `request_cancel` arrives and no
progress slot raises. -/
def cleanEvtsB (evts : List PipeEvt) : Bool :=
  evts.all fun e =>
    match e with
    | PipeEvt.hk c => !c.reqInPause && c.fault.isNone
    | PipeEvt.cancelReq => false

/-- An attempt during which no `request_cancel` arrives and no progress
slot raises: the environment of an uncancelled job with a well-behaved
observer. -/
def cleanAttB (a : AttemptEnv) : Bool :=
  cleanEvtsB a.evts && !a.reqBeforeCatch

/-- Modelled from the specification's words for the byte formatter (the
largest 1024-based unit keeping the mantissa below 1024, capped at TB), to
be compared against the unit `_fmt_bytes` actually selects. -/
def specUnitIdx (n : ℚ) : ℕ :=
  if n < 1024 then 0
  else if n < 1024 ^ 2 then 1
  else if n < 1024 ^ 3 then 2
  else if n < 1024 ^ 4 then 3
  else 4

/-- The `Retrying (attempt/max)...` status note preceding every attempt
after the first (line 229). -/
def retryNote (job : Job) (attempt : ℕ) : List Emission :=
  if 0 < attempt then
    [Emission.status ("Retrying (" ++ toString attempt ++ "/" ++
      toString job.max_retries ++ ")...")]
  else []

/-! ## Concrete sample objects for the closed statements -/

def exJob : Job :=
  { id := 0, url := some ("https://example/v"), title := "song", subtitle := "s",
    format := "mp3", bitrate_kbps := 192, video_quality := "best",
    audio_quality := "best", outdir := "dl", max_retries := 3,
    last_progress_time := 0 }

/-- A well-formed `downloading` event at time `t`. -/
def exDlEvent (t : ℚ) (d tot : Option ℚ) : HookEvent :=
  { status := some ("downloading"), downloaded_bytes := d, total_bytes := tot,
    total_bytes_estimate := none, speed := none, eta := none, t := t }

def exCtx (t : ℚ) (d tot : Option ℚ) : HookCtx :=
  { ev := exDlEvent t d tot, pauseIters := 0, reqInPause := false, fault := none }

/-- A run in which `request_cancel` arrives after the pipeline's last hook
invocation of a successful attempt. -/
def exEnvC5 : RunEnv :=
  { t0 := 999, name := "song",
    atts := fun _ =>
      { evts := [PipeEvt.hk (exCtx 1000 (some 500) (some 1000)), PipeEvt.cancelReq],
        fail := none, reqBeforeCatch := false } }

/-- A run with a single hook invocation (no cancel request in the trace;
used with the flag already set at run start). -/
def exEnvW5 : RunEnv :=
  { t0 := 999, name := "song",
    atts := fun _ =>
      { evts := [PipeEvt.hk (exCtx 1000 (some 500) (some 1000))],
        fail := none, reqBeforeCatch := false } }

/-- A run whose single `downloading` event reports more downloaded bytes
than the reported total, 0.1 s after the run's initial emission. -/
def exEnv6 : RunEnv :=
  { t0 := 1000, name := "song",
    atts := fun _ =>
      { evts := [PipeEvt.hk (exCtx (10001/10) (some 1500) (some 1000))],
        fail := none, reqBeforeCatch := false } }

/-- A run with two coherent `downloading` events. -/
def exEnv6w : RunEnv :=
  { t0 := 0, name := "song",
    atts := fun _ =>
      { evts := [PipeEvt.hk (exCtx 1 (some 500) (some 1000)),
                 PipeEvt.hk (exCtx 2 (some 1000) (some 1000))],
        fail := none, reqBeforeCatch := false } }

/-- A run in which every attempt fails with a retryable pipeline error. -/
def exEnv4 : RunEnv :=
  { t0 := 0, name := "song",
    atts := fun _ => { evts := [], fail := some ("Connection timeout"), reqBeforeCatch := false } }

/-- A progress-slot exception whose text happens to mention cancellation. -/
def exFaultCtx : HookCtx :=
  { ev := exDlEvent 1000 (some 500) (some 1000), pauseIters := 0, reqInPause := false,
    fault := some ("Slot canceled unexpectedly") }

/-- A run with a single immediately-successful attempt. -/
def exEnv8 : RunEnv :=
  { t0 := 0, name := "song",
    atts := fun _ => { evts := [], fail := none, reqBeforeCatch := false } }

/-- A progress-slot exception without any mention of cancellation. -/
def exFaultCtx2 : HookCtx :=
  { ev := exDlEvent 1000 (some 500) (some 1000), pauseIters := 0, reqInPause := false,
    fault := some ("boom") }

def emptyItem : Item :=
  { title := none, channel := none, duration_str := none, webpage_url := none, url := none }

def exM0 : Manager := mkManager ("dl") 16

/-- Queue-processor state reached by: submit job 1, submit job 2, pop,
start — with concurrency limit 1. -/
def exSched : SchedSt :=
  { pending := [2], dispatching := none, running := {1}, started := [1], submitted := [1, 2] }

/-! ## Hook lemmas -/

theorem contains_user_canceled : strContains (strLower ("User canceled")) ("canceled") = true := by
  decide

/-- Exhaustive description of the `try` body of `_on_hook`: it raises the
cancellation exception at the entry check or at a pause tick, emits nothing
further on a throttled/unrecognised event, emits the converting status,
lets an injected slot exception out after updating the throttle clock, or
emits exactly one progress tuple and updates the throttle clock. -/
theorem hookBody_cases (cancel : Bool) (lastT : ℚ) (c : HookCtx) :
    (cancel = true ∧ hookBody cancel lastT c = ([], lastT, true, some ("User canceled"), true))
    ∨ (c.reqInPause = true ∧ ∃ n, hookBody cancel lastT c =
        (List.replicate n (Emission.status ("Paused…")), lastT, true, some ("User canceled"), true))
    ∨ (∃ n, hookBody cancel lastT c =
        (List.replicate n (Emission.status ("Paused…")), lastT, false, none, false))
    ∨ (∃ n, hookBody cancel lastT c =
        (List.replicate n (Emission.status ("Paused…")) ++ [Emission.status ("Converting…")],
          lastT, false, none, false))
    ∨ (∃ n m, c.fault = some m ∧ lastT + 1/4 ≤ c.ev.t ∧ hookBody cancel lastT c =
        (List.replicate n (Emission.status ("Paused…")), c.ev.t, false, some m, false))
    ∨ (∃ n, lastT + 1/4 ≤ c.ev.t ∧ hookBody cancel lastT c =
        (List.replicate n (Emission.status ("Paused…")) ++
          [Emission.progress c.ev.t
            (if tRes c.ev ≠ 0 then pyInt (dRes c.ev * 100 / tRes c.ev) else 0)
            (match qTruthy c.ev.speed with
              | some sp => _fmt_bytes (some sp) ++ "/s"
              | none => "--")
            (_fmt_eta c.ev.eta) (_fmt_bytes (some (tRes c.ev)))],
          c.ev.t, false, none, false)) := by
  cases cancel with
  | true => exact Or.inl ⟨rfl, by simp [hookBody]⟩
  | false =>
    cases hrp : c.reqInPause with
    | true =>
      refine Or.inr (Or.inl ⟨rfl, c.pauseIters + 1, ?_⟩)
      simp [hookBody, hrp, List.replicate_succ']
    | false =>
      rcases hst : c.ev.status with _ | s
      · exact Or.inr (Or.inr (Or.inl ⟨c.pauseIters, by simp [hookBody, hrp, hst]⟩))
      · by_cases hd : s = "downloading"
        · by_cases hth : c.ev.t - lastT < 1/4
          · refine Or.inr (Or.inr (Or.inl ⟨c.pauseIters, ?_⟩))
            simp [hookBody, hrp, hst, hd, hth]
            intro h
            linarith
          · have hle : lastT + 1/4 ≤ c.ev.t := by linarith [not_lt.mp hth]
            rcases hf : c.fault with _ | m
            · refine Or.inr (Or.inr (Or.inr (Or.inr (Or.inr ⟨c.pauseIters, hle, ?_⟩))))
              simp [hookBody, hrp, hst, hd, hth, hf]
              linarith
            · refine Or.inr (Or.inr (Or.inr (Or.inr (Or.inl ⟨c.pauseIters, m, ?_, hle, ?_⟩))))
              · exact hf ▸ rfl
              · simp [hookBody, hrp, hst, hd, hth, hf]
                linarith
        · by_cases hfin : s = "finished"
          · exact Or.inr (Or.inr (Or.inr (Or.inl
              ⟨c.pauseIters, by simp [hookBody, hrp, hst, hd, hfin]⟩)))
          · exact Or.inr (Or.inr (Or.inl
              ⟨c.pauseIters, by simp [hookBody, hrp, hst, hd, hfin]⟩))

theorem progressOf_append (l₁ l₂ : List Emission) :
    progressOf (l₁ ++ l₂) = progressOf l₁ ++ progressOf l₂ := by
  simp [progressOf]

theorem progressOf_replicate_status (n : ℕ) (s : String) :
    progressOf (List.replicate n (Emission.status s)) = [] := by
  induction n with
  | zero => rfl
  | succ n ih => simpa [List.replicate_succ, progressOf, List.filterMap_cons] using ih

/-- `pct = int(downloaded * 100 / total) if total else 0` lands in `[0,100]`
whenever the event's byte counts are coherent. -/
theorem pct_bound (ev : HookEvent) (h : GoodEv ev) :
    0 ≤ (if tRes ev ≠ 0 then pyInt (dRes ev * 100 / tRes ev) else 0)
    ∧ (if tRes ev ≠ 0 then pyInt (dRes ev * 100 / tRes ev) else 0) ≤ 100 := by
  obtain ⟨hd, ht, hdt⟩ := h
  by_cases h0 : tRes ev = 0
  · simp [h0]
  · have htpos : 0 < tRes ev := lt_of_le_of_ne ht (Ne.symm h0)
    have hx0 : 0 ≤ dRes ev * 100 / tRes ev := by positivity
    have hx100 : dRes ev * 100 / tRes ev ≤ 100 := by
      rw [div_le_iff htpos]
      nlinarith [hdt h0]
    simp only [ne_eq, h0, not_false_iff, if_true, pyInt, if_pos hx0]
    refine ⟨Int.floor_nonneg.mpr hx0, ?_⟩
    have h2 := Int.floor_le_floor hx100
    simpa using h2

/-- All facts about a single `_on_hook` invocation needed downstream:
emissions carry no `done`/`error`; the throttle clock never moves
backwards; an observation of the cancel flag forces the cancellation
exception out with the flag set; anything that propagates has "canceled"
in its lowercased text; the progress output is empty or one well-throttled
tuple; and an uncancelled, unfaulted invocation returns normally. -/
theorem onHook_facts (cancel : Bool) (lastT : ℚ) (c : HookCtx) :
    (∀ e ∈ (onHook cancel lastT c).ems, isDoneB e = false ∧ isErrB e = false)
    ∧ lastT ≤ (onHook cancel lastT c).lastT
    ∧ ((onHook cancel lastT c).saw = true →
        (onHook cancel lastT c).raised = some ("User canceled")
        ∧ (onHook cancel lastT c).cancel = true)
    ∧ (∀ m, (onHook cancel lastT c).raised = some m →
        strContains (strLower m) ("canceled") = true)
    ∧ ((progressOf (onHook cancel lastT c).ems = [] ∧ (onHook cancel lastT c).lastT = lastT)
       ∨ (∃ pct, progressOf (onHook cancel lastT c).ems = [(c.ev.t, pct)]
           ∧ lastT + 1/4 ≤ c.ev.t ∧ (onHook cancel lastT c).lastT = c.ev.t
           ∧ (GoodEv c.ev → 0 ≤ pct ∧ pct ≤ 100))
       ∨ (progressOf (onHook cancel lastT c).ems = [] ∧ lastT + 1/4 ≤ c.ev.t
           ∧ (onHook cancel lastT c).lastT = c.ev.t))
    ∧ (cancel = false → c.reqInPause = false → c.fault = none →
        (onHook cancel lastT c).raised = none ∧ (onHook cancel lastT c).cancel = false
        ∧ (onHook cancel lastT c).saw = false) := by
  rcases hookBody_cases cancel lastT c with ⟨hc, h⟩ | ⟨hrp, n, h⟩ | ⟨n, h⟩ | ⟨n, h⟩
    | ⟨n, m, hf, hle, h⟩ | ⟨n, hle, h⟩
  · refine ⟨?_, ?_, ?_, ?_, ?_, ?_⟩
    · intro e he
      simp [onHook, h, contains_user_canceled] at he
    · simp [onHook, h, contains_user_canceled]
    · intro _
      simp [onHook, h, contains_user_canceled]
    · intro m hm
      simp [onHook, h, contains_user_canceled] at hm
      subst hm
      exact contains_user_canceled
    · left
      simp [onHook, h, contains_user_canceled, progressOf]
    · intro hcf
      rw [hc] at hcf
      cases hcf
  · refine ⟨?_, ?_, ?_, ?_, ?_, ?_⟩
    · intro e he
      simp [onHook, h, contains_user_canceled] at he
      rcases he with ⟨-, rfl⟩
      simp [isDoneB, isErrB]
    · simp [onHook, h, contains_user_canceled]
    · intro _
      simp [onHook, h, contains_user_canceled]
    · intro m hm
      simp [onHook, h, contains_user_canceled] at hm
      subst hm
      exact contains_user_canceled
    · left
      simp [onHook, h, contains_user_canceled, progressOf_replicate_status]
    · intro _ hrp2 _
      rw [hrp] at hrp2
      cases hrp2
  · refine ⟨?_, ?_, ?_, ?_, ?_, ?_⟩
    · intro e he
      simp [onHook, h] at he
      rcases he with ⟨-, rfl⟩
      simp [isDoneB, isErrB]
    · simp [onHook, h]
    · intro hs
      simp [onHook, h] at hs
    · intro m hm
      simp [onHook, h] at hm
    · left
      simp [onHook, h, progressOf_replicate_status]
    · intro _ _ _
      simp [onHook, h]
  · refine ⟨?_, ?_, ?_, ?_, ?_, ?_⟩
    · intro e he
      simp [onHook, h] at he
      rcases he with ⟨-, rfl⟩ | rfl <;> simp [isDoneB, isErrB]
    · simp [onHook, h]
    · intro hs
      simp [onHook, h] at hs
    · intro m hm
      simp [onHook, h] at hm
    · left
      simp [onHook, h, progressOf_append, progressOf_replicate_status, progressOf]
    · intro _ _ _
      simp [onHook, h]
  · by_cases hcm : strContains (strLower m) ("canceled") = true
    · refine ⟨?_, ?_, ?_, ?_, ?_, ?_⟩
      · intro e he
        simp [onHook, h, hcm] at he
        rcases he with ⟨-, rfl⟩
        simp [isDoneB, isErrB]
      · simp [onHook, h, hcm]
        linarith
      · intro hs
        simp [onHook, h, hcm] at hs
      · intro m' hm'
        simp [onHook, h, hcm] at hm'
        subst hm'
        exact hcm
      · right
        right
        simp [onHook, h, hcm, progressOf_replicate_status]
        exact hle
      · intro _ _ hf2
        rw [hf2] at hf
        cases hf
    · refine ⟨?_, ?_, ?_, ?_, ?_, ?_⟩
      · intro e he
        simp [onHook, h, hcm] at he
        rcases he with ⟨-, rfl⟩
        simp [isDoneB, isErrB]
      · simp [onHook, h, hcm]
        linarith
      · intro hs
        simp [onHook, h, hcm] at hs
      · intro m' hm'
        simp [onHook, h, hcm] at hm'
      · right
        right
        simp [onHook, h, hcm, progressOf_replicate_status]
        exact hle
      · intro _ _ hf2
        rw [hf2] at hf
        cases hf
  · refine ⟨?_, ?_, ?_, ?_, ?_, ?_⟩
    · intro e he
      simp [onHook, h] at he
      rcases he with ⟨-, rfl⟩ | rfl <;> simp [isDoneB, isErrB]
    · simp [onHook, h]
      linarith
    · intro hs
      simp [onHook, h] at hs
    · intro m hm
      simp [onHook, h] at hm
    · right
      left
      refine ⟨(if tRes c.ev ≠ 0 then pyInt (dRes c.ev * 100 / tRes c.ev) else 0), ?_, hle, ?_, ?_⟩
      · simp [onHook, h, progressOf_append, progressOf_replicate_status, progressOf]
      · simp [onHook, h]
      · exact pct_bound c.ev
    · intro _ _ _
      simp [onHook, h]

/-! ## Throttle bookkeeping -/

theorem throttled_le {L M : ℚ} : ∀ {ps : List (ℚ × ℤ)}, throttled L ps M → L ≤ M := by
  intro ps
  induction ps generalizing L with
  | nil => intro h; exact h
  | cons p ps ih =>
    intro h
    have h1 : L + 1/4 ≤ p.1 := h.1
    have h2 := ih h.2
    linarith

theorem throttled_mono {L' L M : ℚ} {ps : List (ℚ × ℤ)} (hL : L' ≤ L)
    (h : throttled L ps M) : throttled L' ps M := by
  cases ps with
  | nil => exact le_trans hL h
  | cons p ps => exact ⟨by linarith [h.1], h.2⟩

theorem throttled_append {L M K : ℚ} {qs : List (ℚ × ℤ)} :
    ∀ {ps : List (ℚ × ℤ)}, throttled L ps M → throttled M qs K → throttled L (ps ++ qs) K := by
  intro ps
  induction ps generalizing L with
  | nil => intro h1 h2; exact throttled_mono h1 h2
  | cons p ps ih => intro h1 h2; exact ⟨h1.1, ih h1.2 h2⟩

theorem throttled_chain {L M : ℚ} :
    ∀ {ps : List (ℚ × ℤ)}, throttled L ps M →
      List.Chain' (fun a b : ℚ => a + 1/4 ≤ b) (ps.map Prod.fst) := by
  intro ps
  induction ps generalizing L with
  | nil => intro _; simp
  | cons p ps ih =>
    intro h
    cases ps with
    | nil => simp
    | cons q qs =>
      have hc := ih (L := p.1) h.2
      simp only [List.map_cons] at hc ⊢
      exact List.chain'_cons.mpr ⟨h.2.1, hc⟩

/-- The progress emissions of one hook call are spaced by the throttle. -/
theorem onHook_throttled (cancel : Bool) (lastT : ℚ) (c : HookCtx) :
    throttled lastT (progressOf (onHook cancel lastT c).ems) (onHook cancel lastT c).lastT := by
  rcases (onHook_facts cancel lastT c).2.2.2.2.1 with ⟨h1, h2⟩ | ⟨pct, h1, h2, h3, -⟩
    | ⟨h1, h2, h3⟩
  · rw [h1, h2]
    simp [throttled]
  · rw [h1, h3]
    exact ⟨h2, le_refl _⟩
  · rw [h1, h3]
    show throttled lastT [] c.ev.t
    simp [throttled]
    linarith

/-- The progress percentages of one hook call on a coherent event. -/
theorem onHook_pct (cancel : Bool) (lastT : ℚ) (c : HookCtx) (hg : GoodEv c.ev) :
    ∀ tp ∈ progressOf (onHook cancel lastT c).ems, 0 ≤ tp.2 ∧ tp.2 ≤ 100 := by
  rcases (onHook_facts cancel lastT c).2.2.2.2.1 with ⟨h1, -⟩ | ⟨pct, h1, -, -, h4⟩ | ⟨h1, -, -⟩
  · rw [h1]; intro tp htp; cases htp
  · rw [h1]
    intro tp htp
    rcases List.mem_singleton.mp htp with rfl
    exact h4 hg
  · rw [h1]; intro tp htp; cases htp

/-! ## Pipeline-event processing lemmas -/

theorem execEvts_cancelReq (cancel : Bool) (lastT : ℚ) (rest : List PipeEvt) :
    execEvts cancel lastT (PipeEvt.cancelReq :: rest) = execEvts true lastT rest := by
  simp [execEvts]

theorem execEvts_hk_some (cancel : Bool) (lastT : ℚ) (c : HookCtx) (rest : List PipeEvt)
    (m : String) (ho : (onHook cancel lastT c).raised = some m) :
    execEvts cancel lastT (PipeEvt.hk c :: rest)
      = ((onHook cancel lastT c).ems, (onHook cancel lastT c).cancel,
         (onHook cancel lastT c).lastT, some m, (onHook cancel lastT c).saw) := by
  simp [execEvts, ho]

theorem execEvts_hk_none (cancel : Bool) (lastT : ℚ) (c : HookCtx) (rest : List PipeEvt)
    (ho : (onHook cancel lastT c).raised = none) :
    execEvts cancel lastT (PipeEvt.hk c :: rest)
      = ((onHook cancel lastT c).ems
           ++ (execEvts (onHook cancel lastT c).cancel (onHook cancel lastT c).lastT rest).1,
         (execEvts (onHook cancel lastT c).cancel (onHook cancel lastT c).lastT rest).2.1,
         (execEvts (onHook cancel lastT c).cancel (onHook cancel lastT c).lastT rest).2.2.1,
         (execEvts (onHook cancel lastT c).cancel (onHook cancel lastT c).lastT rest).2.2.2.1,
         (onHook cancel lastT c).saw
           || (execEvts (onHook cancel lastT c).cancel
                (onHook cancel lastT c).lastT rest).2.2.2.2) := by
  simp [execEvts, ho]

/-- All facts about one pipeline-run of hook events: no `done`/`error`
emissions, throttle spacing from the starting clock to the final clock, an
observation of the cancel flag forces the cancellation exception and the
flag set, coherent events give bounded percentages, and a clean
uncancelled event list returns normally with the flag still clear. -/
theorem execEvts_facts (evts : List PipeEvt) :
    ∀ (cancel : Bool) (lastT : ℚ),
    (∀ e ∈ (execEvts cancel lastT evts).1, isDoneB e = false ∧ isErrB e = false)
    ∧ throttled lastT (progressOf (execEvts cancel lastT evts).1)
        (execEvts cancel lastT evts).2.2.1
    ∧ ((execEvts cancel lastT evts).2.2.2.2 = true →
        (execEvts cancel lastT evts).2.2.2.1 = some ("User canceled")
        ∧ (execEvts cancel lastT evts).2.1 = true)
    ∧ ((∀ c : HookCtx, PipeEvt.hk c ∈ evts → GoodEv c.ev) →
        ∀ tp ∈ progressOf (execEvts cancel lastT evts).1, 0 ≤ tp.2 ∧ tp.2 ≤ 100)
    ∧ (cancel = false → cleanEvtsB evts = true →
        (execEvts cancel lastT evts).2.2.2.1 = none
        ∧ (execEvts cancel lastT evts).2.1 = false
        ∧ (execEvts cancel lastT evts).2.2.2.2 = false) := by
  induction evts with
  | nil =>
    intro cancel lastT
    refine ⟨?_, ?_, ?_, ?_, ?_⟩
    · intro e he; cases he
    · simp [execEvts, progressOf, throttled]
    · intro hs; cases hs
    · intro _ tp htp; cases htp
    · intro hc _; exact ⟨rfl, hc, rfl⟩
  | cons ev rest ih =>
    intro cancel lastT
    cases ev with
    | cancelReq =>
      have ih' := ih true lastT
      rw [execEvts_cancelReq]
      refine ⟨ih'.1, ih'.2.1, ih'.2.2.1, ?_, ?_⟩
      · intro hg
        exact ih'.2.2.2.1 fun c hc => hg c (List.mem_cons_of_mem _ hc)
      · intro _ hcl
        simp [cleanEvtsB] at hcl
    | hk c =>
      have hof := onHook_facts cancel lastT c
      rcases ho : (onHook cancel lastT c).raised with _ | m
      · rw [execEvts_hk_none cancel lastT c rest ho]
        have ih' := ih (onHook cancel lastT c).cancel (onHook cancel lastT c).lastT
        refine ⟨?_, ?_, ?_, ?_, ?_⟩
        · intro e he
          rcases List.mem_append.mp he with he | he
          · exact hof.1 e he
          · exact ih'.1 e he
        · rw [progressOf_append]
          exact throttled_append (onHook_throttled cancel lastT c) ih'.2.1
        · intro hs
          rcases Bool.or_eq_true_iff.mp hs with hs | hs
          · rcases hof.2.2.1 hs with ⟨hr, -⟩
            rw [ho] at hr
            cases hr
          · exact ih'.2.2.1 hs
        · intro hg tp htp
          rw [progressOf_append] at htp
          rcases List.mem_append.mp htp with htp | htp
          · exact onHook_pct cancel lastT c (hg c (List.mem_cons_self _ _)) tp htp
          · exact ih'.2.2.2.1 (fun c' hc' => hg c' (List.mem_cons_of_mem _ hc')) tp htp
        · intro hc hcl
          simp only [cleanEvtsB, List.all_cons, Bool.and_eq_true] at hcl
          obtain ⟨⟨hrp, hfn⟩, hc2⟩ := hcl
          have hclean := hof.2.2.2.2.2 hc (by simpa using hrp)
            (Option.isNone_iff_eq_none.mp hfn)
          have ihc := ih'.2.2.2.2 hclean.2.1 hc2
          refine ⟨ihc.1, ihc.2.1, ?_⟩
          simp [hclean.2.2, ihc.2.2]
      · rw [execEvts_hk_some cancel lastT c rest m ho]
        refine ⟨?_, ?_, ?_, ?_, ?_⟩
        · exact fun e he => hof.1 e he
        · exact onHook_throttled cancel lastT c
        · intro hs
          rcases hof.2.2.1 hs with ⟨hr, hcn⟩
          rw [ho] at hr
          exact ⟨by rw [← hr], hcn⟩
        · intro hg tp htp
          exact onHook_pct cancel lastT c (hg c (List.mem_cons_self _ _)) tp htp
        · intro hc hcl
          simp only [cleanEvtsB, List.all_cons, Bool.and_eq_true] at hcl
          obtain ⟨⟨hrp, hfn⟩, -⟩ := hcl
          have hclean := hof.2.2.2.2.2 hc (by simpa using hrp)
            (Option.isNone_iff_eq_none.mp hfn)
          rw [ho] at hclean
          cases hclean.1

/-- All facts about one `_execute_download` call: no `error` emissions; a
`done` emission carries the final path and only happens on a successful
return; throttle spacing; cancel-observation forces the cancellation
exception with the flag set; coherent events give bounded percentages; and
a clean uncancelled attempt returns exactly the pipeline's outcome with
the flag still clear. -/
theorem execAttempt_facts (job : Job) (name : String) (cancel : Bool) (lastT : ℚ)
    (a : AttemptEnv) :
    (∀ e ∈ (execAttempt job name cancel lastT a).1, isErrB e = false)
    ∧ (∀ p, Emission.done p ∈ (execAttempt job name cancel lastT a).1 →
        p = finalPath job name ∧ (execAttempt job name cancel lastT a).2.2.2.1 = none)
    ∧ throttled lastT (progressOf (execAttempt job name cancel lastT a).1)
        (execAttempt job name cancel lastT a).2.2.1
    ∧ ((execAttempt job name cancel lastT a).2.2.2.2 = true →
        (execAttempt job name cancel lastT a).2.2.2.1 = some ("User canceled")
        ∧ (execAttempt job name cancel lastT a).2.1 = true)
    ∧ ((∀ c : HookCtx, PipeEvt.hk c ∈ a.evts → GoodEv c.ev) →
        ∀ tp ∈ progressOf (execAttempt job name cancel lastT a).1, 0 ≤ tp.2 ∧ tp.2 ≤ 100)
    ∧ (cancel = false → cleanAttB a = true →
        (execAttempt job name cancel lastT a).2.2.2.1 = a.fail
        ∧ (execAttempt job name cancel lastT a).2.1 = false
        ∧ (execAttempt job name cancel lastT a).2.2.2.2 = false) := by
  have hev := execEvts_facts a.evts cancel lastT
  rcases hr : (execEvts cancel lastT a.evts).2.2.2.1 with _ | m
  · rcases hf : a.fail with _ | m'
    · have hx : execAttempt job name cancel lastT a
          = ((execEvts cancel lastT a.evts).1 ++ [Emission.done (finalPath job name)],
             (execEvts cancel lastT a.evts).2.1, (execEvts cancel lastT a.evts).2.2.1,
             none, (execEvts cancel lastT a.evts).2.2.2.2) := by
        simp [execAttempt, hr, hf]
      rw [hx]
      refine ⟨?_, ?_, ?_, ?_, ?_, ?_⟩
      · intro e he
        rcases List.mem_append.mp he with he | he
        · exact (hev.1 e he).2
        · rcases List.mem_singleton.mp he with rfl
          simp [isErrB]
      · intro p hp
        rcases List.mem_append.mp hp with hp | hp
        · exact absurd (hev.1 _ hp).1 (by simp [isDoneB])
        · rcases List.mem_singleton.mp hp with hp
          cases hp
          exact ⟨rfl, rfl⟩
      · rw [progressOf_append]
        have : progressOf [Emission.done (finalPath job name)] = [] := by
          simp [progressOf]
        rw [this, List.append_nil]
        exact hev.2.1
      · intro hs
        rcases hev.2.2.1 hs with ⟨hr2, -⟩
        rw [hr] at hr2
        cases hr2
      · intro hg tp htp
        rw [progressOf_append] at htp
        have : progressOf [Emission.done (finalPath job name)] = [] := by
          simp [progressOf]
        rw [this, List.append_nil] at htp
        exact hev.2.2.2.1 hg tp htp
      · intro hc hcl
        obtain ⟨h1, -⟩ := Bool.and_eq_true_iff.mp hcl
        have := hev.2.2.2.2 hc h1
        exact ⟨by simp [hf], this.2.1, this.2.2⟩
    · have hx : execAttempt job name cancel lastT a
          = ((execEvts cancel lastT a.evts).1,
             (execEvts cancel lastT a.evts).2.1 || a.reqBeforeCatch,
             (execEvts cancel lastT a.evts).2.2.1,
             some m', (execEvts cancel lastT a.evts).2.2.2.2) := by
        simp [execAttempt, hr, hf]
      rw [hx]
      refine ⟨?_, ?_, ?_, ?_, ?_, ?_⟩
      · intro e he
        exact (hev.1 e he).2
      · intro p hp
        exact absurd (hev.1 _ hp).1 (by simp [isDoneB])
      · exact hev.2.1
      · intro hs
        rcases hev.2.2.1 hs with ⟨hr2, -⟩
        rw [hr] at hr2
        cases hr2
      · exact hev.2.2.2.1
      · intro hc hcl
        obtain ⟨h1, h2⟩ := Bool.and_eq_true_iff.mp hcl
        have h3 := hev.2.2.2.2 hc h1
        refine ⟨by simp [hf], ?_, h3.2.2⟩
        rw [h3.2.1]
        simpa using h2
  · have hx : execAttempt job name cancel lastT a
        = ((execEvts cancel lastT a.evts).1,
           (execEvts cancel lastT a.evts).2.1 || a.reqBeforeCatch,
           (execEvts cancel lastT a.evts).2.2.1,
           some m, (execEvts cancel lastT a.evts).2.2.2.2) := by
      simp [execAttempt, hr]
    rw [hx]
    refine ⟨?_, ?_, ?_, ?_, ?_, ?_⟩
    · intro e he
      exact (hev.1 e he).2
    · intro p hp
      exact absurd (hev.1 _ hp).1 (by simp [isDoneB])
    · exact hev.2.1
    · intro hs
      rcases hev.2.2.1 hs with ⟨hr2, hcn⟩
      rw [hr] at hr2
      exact ⟨by rw [← hr2], by simp [hcn]⟩
    · exact hev.2.2.2.1
    · intro hc hcl
      obtain ⟨h1, -⟩ := Bool.and_eq_true_iff.mp hcl
      have h3 := hev.2.2.2.2 hc h1
      rw [hr] at h3
      cases h3.1

/-! ## Retry-loop lemmas -/

theorem runLoop_step_none (job : Job) (env : RunEnv) (r attempt : ℕ) (cancel : Bool)
    (lastT : ℚ) (le : Option String)
    (h : (execAttempt job env.name cancel lastT (env.atts attempt)).2.2.2.1 = none) :
    runLoop job env (r + 1) attempt cancel lastT le
      = (retryNote job attempt ++ (execAttempt job env.name cancel lastT (env.atts attempt)).1,
         1, (execAttempt job env.name cancel lastT (env.atts attempt)).2.2.2.2) := by
  simp [runLoop, retryNote, h]

theorem runLoop_step_cancel (job : Job) (env : RunEnv) (r attempt : ℕ) (cancel : Bool)
    (lastT : ℚ) (le : Option String) (m : String)
    (h : (execAttempt job env.name cancel lastT (env.atts attempt)).2.2.2.1 = some m)
    (hc : (execAttempt job env.name cancel lastT (env.atts attempt)).2.1 = true) :
    runLoop job env (r + 1) attempt cancel lastT le
      = (retryNote job attempt ++ (execAttempt job env.name cancel lastT (env.atts attempt)).1
           ++ [Emission.error ("Canceled by user")], 1, true) := by
  simp [runLoop, retryNote, h, hc]

theorem runLoop_step_retry (job : Job) (env : RunEnv) (r attempt : ℕ) (cancel : Bool)
    (lastT : ℚ) (le : Option String) (m : String)
    (h : (execAttempt job env.name cancel lastT (env.atts attempt)).2.2.2.1 = some m)
    (hc : (execAttempt job env.name cancel lastT (env.atts attempt)).2.1 = false)
    (hcond : isRetryable m = true ∧ attempt < job.max_retries - 1) :
    runLoop job env (r + 1) attempt cancel lastT le
      = (retryNote job attempt ++ (execAttempt job env.name cancel lastT (env.atts attempt)).1
           ++ (runLoop job env r (attempt + 1) false
                (execAttempt job env.name cancel lastT (env.atts attempt)).2.2.1 (some m)).1,
         (runLoop job env r (attempt + 1) false
            (execAttempt job env.name cancel lastT (env.atts attempt)).2.2.1 (some m)).2.1 + 1,
         (execAttempt job env.name cancel lastT (env.atts attempt)).2.2.2.2
           || (runLoop job env r (attempt + 1) false
                (execAttempt job env.name cancel lastT (env.atts attempt)).2.2.1
                (some m)).2.2) := by
  simp [runLoop, retryNote, h, hc, hcond.1, hcond.2]

theorem runLoop_step_break (job : Job) (env : RunEnv) (r attempt : ℕ) (cancel : Bool)
    (lastT : ℚ) (le : Option String) (m : String)
    (h : (execAttempt job env.name cancel lastT (env.atts attempt)).2.2.2.1 = some m)
    (hc : (execAttempt job env.name cancel lastT (env.atts attempt)).2.1 = false)
    (hcond : ¬(isRetryable m = true ∧ attempt < job.max_retries - 1)) :
    runLoop job env (r + 1) attempt cancel lastT le
      = (retryNote job attempt ++ (execAttempt job env.name cancel lastT (env.atts attempt)).1
           ++ [Emission.error m], 1,
         (execAttempt job env.name cancel lastT (env.atts attempt)).2.2.2.2) := by
  rcases Decidable.not_and_iff_or_not.mp hcond with hh | hh
  · simp [runLoop, retryNote, h, hc, hh]
  · simp [runLoop, retryNote, h, hc, hh]

theorem retryNote_no_done_err (job : Job) (attempt : ℕ) :
    ∀ e ∈ retryNote job attempt, isDoneB e = false ∧ isErrB e = false := by
  intro e he
  unfold retryNote at he
  rcases Nat.eq_zero_or_pos attempt with h0 | h0
  · simp [h0] at he
  · simp [h0] at he
    subst he
    simp [isDoneB, isErrB]

theorem retryNote_progress (job : Job) (attempt : ℕ) :
    progressOf (retryNote job attempt) = [] := by
  unfold retryNote
  rcases Nat.eq_zero_or_pos attempt with h0 | h0
  · simp [h0, progressOf]
  · simp [h0, progressOf]

/-- If any cooperative checkpoint of the run observed the cancel flag, the
loop's emissions end with the terminal `error("Canceled by user")` and the
loop emitted no `done`. -/
theorem runLoop_saw (job : Job) (env : RunEnv) :
    ∀ (fuel attempt : ℕ) (cancel : Bool) (lastT : ℚ) (le : Option String),
    (runLoop job env fuel attempt cancel lastT le).2.2 = true →
    (runLoop job env fuel attempt cancel lastT le).1.getLast?
        = some (Emission.error ("Canceled by user"))
    ∧ ∀ p, Emission.done p ∉ (runLoop job env fuel attempt cancel lastT le).1 := by
  intro fuel
  induction fuel with
  | zero =>
    intro attempt cancel lastT le hs
    cases le <;> simp [runLoop] at hs
  | succ r ih =>
    intro attempt cancel lastT le hs
    have hA := execAttempt_facts job env.name cancel lastT (env.atts attempt)
    rcases hra : (execAttempt job env.name cancel lastT (env.atts attempt)).2.2.2.1 with _ | m
    · rw [runLoop_step_none job env r attempt cancel lastT le hra] at hs
      simp only [] at hs
      rcases hA.2.2.2.1 hs with ⟨hr2, -⟩
      rw [hra] at hr2
      cases hr2
    · rcases hc : (execAttempt job env.name cancel lastT (env.atts attempt)).2.1 with _ | _
      · by_cases hcond : isRetryable m = true ∧ attempt < job.max_retries - 1
        · rw [runLoop_step_retry job env r attempt cancel lastT le m hra hc hcond] at hs ⊢
          simp only [] at hs
          rcases Bool.or_eq_true_iff.mp hs with hs1 | hs1
          · exact absurd (hA.2.2.2.1 hs1).2 (by simp [hc])
          · have hih := ih (attempt + 1) false
              (execAttempt job env.name cancel lastT (env.atts attempt)).2.2.1 (some m) hs1
            constructor
            · have hne : (runLoop job env r (attempt + 1) false
                  (execAttempt job env.name cancel lastT (env.atts attempt)).2.2.1
                  (some m)).1 ≠ [] := by
                intro hnil
                rw [hnil] at hih
                cases hih.1
              simp only [List.append_assoc, List.getLast?_append, hih.1]
              rfl
            · intro p hp
              simp only [List.mem_append] at hp
              rcases hp with (hp | hp) | hp
              · exact absurd (retryNote_no_done_err job attempt _ hp).1 (by simp [isDoneB])
              · exact absurd ((hA.2.1 p hp).2) (by rw [hra]; exact fun h => by cases h)
              · exact hih.2 p hp
        · rw [runLoop_step_break job env r attempt cancel lastT le m hra hc hcond] at hs
          simp only [] at hs
          exact absurd (hA.2.2.2.1 hs).2 (by simp [hc])
      · rw [runLoop_step_cancel job env r attempt cancel lastT le m hra hc]
        constructor
        · simp only [List.append_assoc, List.getLast?_append, List.getLast?_concat]
          rfl
        · intro p hp
          simp only [List.mem_append, List.mem_singleton] at hp
          rcases hp with (hp | hp) | hp
          · exact absurd (retryNote_no_done_err job attempt _ hp).1 (by simp [isDoneB])
          · exact absurd ((hA.2.1 p hp).2) (by rw [hra]; exact fun h => by cases h)
          · cases hp

/-- Every `done` the loop emits carries the final resolved output path. -/
theorem runLoop_done (job : Job) (env : RunEnv) :
    ∀ (fuel attempt : ℕ) (cancel : Bool) (lastT : ℚ) (le : Option String) (p : String),
    Emission.done p ∈ (runLoop job env fuel attempt cancel lastT le).1 →
    p = finalPath job env.name := by
  intro fuel
  induction fuel with
  | zero =>
    intro attempt cancel lastT le p hp
    cases le <;> simp [runLoop] at hp
  | succ r ih =>
    intro attempt cancel lastT le p hp
    have hA := execAttempt_facts job env.name cancel lastT (env.atts attempt)
    rcases hra : (execAttempt job env.name cancel lastT (env.atts attempt)).2.2.2.1 with _ | m
    · rw [runLoop_step_none job env r attempt cancel lastT le hra] at hp
      simp only [List.mem_append] at hp
      rcases hp with hp | hp
      · exact absurd (retryNote_no_done_err job attempt _ hp).1 (by simp [isDoneB])
      · exact (hA.2.1 p hp).1
    · rcases hc : (execAttempt job env.name cancel lastT (env.atts attempt)).2.1 with _ | _
      · by_cases hcond : isRetryable m = true ∧ attempt < job.max_retries - 1
        · rw [runLoop_step_retry job env r attempt cancel lastT le m hra hc hcond] at hp
          simp only [List.mem_append] at hp
          rcases hp with (hp | hp) | hp
          · exact absurd (retryNote_no_done_err job attempt _ hp).1 (by simp [isDoneB])
          · exact (hA.2.1 p hp).1
          · exact ih _ _ _ _ p hp
        · rw [runLoop_step_break job env r attempt cancel lastT le m hra hc hcond] at hp
          simp only [List.mem_append, List.mem_singleton] at hp
          rcases hp with (hp | hp) | hp
          · exact absurd (retryNote_no_done_err job attempt _ hp).1 (by simp [isDoneB])
          · exact (hA.2.1 p hp).1
          · cases hp
      · rw [runLoop_step_cancel job env r attempt cancel lastT le m hra hc] at hp
        simp only [List.mem_append, List.mem_singleton] at hp
        rcases hp with (hp | hp) | hp
        · exact absurd (retryNote_no_done_err job attempt _ hp).1 (by simp [isDoneB])
        · exact (hA.2.1 p hp).1
        · cases hp

theorem attGoodB_good {a : AttemptEnv} (h : attGoodB a = true) :
    ∀ c : HookCtx, PipeEvt.hk c ∈ a.evts → GoodEv c.ev := by
  intro c hc
  have := List.all_eq_true.mp h _ hc
  simpa using this

/-- Throttle spacing and percentage bounds through the whole retry loop. -/
theorem runLoop_throttle (job : Job) (env : RunEnv)
    (hg : ∀ k, attGoodB (env.atts k) = true) :
    ∀ (fuel attempt : ℕ) (cancel : Bool) (lastT : ℚ) (le : Option String),
    (∃ M, throttled lastT (progressOf (runLoop job env fuel attempt cancel lastT le).1) M)
    ∧ (∀ tp ∈ progressOf (runLoop job env fuel attempt cancel lastT le).1,
        0 ≤ tp.2 ∧ tp.2 ≤ 100) := by
  intro fuel
  induction fuel with
  | zero =>
    intro attempt cancel lastT le
    constructor
    · refine ⟨lastT, ?_⟩
      cases le <;> simp [runLoop, progressOf, throttled]
    · intro tp htp
      cases le <;> simp [runLoop, progressOf] at htp
  | succ r ih =>
    intro attempt cancel lastT le
    have hA := execAttempt_facts job env.name cancel lastT (env.atts attempt)
    have hAg := hA.2.2.2.2.1 (attGoodB_good (hg attempt))
    rcases hra : (execAttempt job env.name cancel lastT (env.atts attempt)).2.2.2.1 with _ | m
    · rw [runLoop_step_none job env r attempt cancel lastT le hra]
      constructor
      · refine ⟨(execAttempt job env.name cancel lastT (env.atts attempt)).2.2.1, ?_⟩
        simp only [progressOf_append, retryNote_progress, List.nil_append]
        exact hA.2.2.1
      · intro tp htp
        simp only [progressOf_append, retryNote_progress, List.nil_append] at htp
        exact hAg tp htp
    · rcases hc : (execAttempt job env.name cancel lastT (env.atts attempt)).2.1 with _ | _
      · by_cases hcond : isRetryable m = true ∧ attempt < job.max_retries - 1
        · rw [runLoop_step_retry job env r attempt cancel lastT le m hra hc hcond]
          have hih := ih (attempt + 1) false
            (execAttempt job env.name cancel lastT (env.atts attempt)).2.2.1 (some m)
          constructor
          · obtain ⟨M, hM⟩ := hih.1
            refine ⟨M, ?_⟩
            simp only [progressOf_append, retryNote_progress, List.nil_append]
            exact throttled_append hA.2.2.1 hM
          · intro tp htp
            simp only [progressOf_append, retryNote_progress, List.nil_append,
              List.mem_append] at htp
            rcases htp with htp | htp
            · exact hAg tp htp
            · exact hih.2 tp htp
        · rw [runLoop_step_break job env r attempt cancel lastT le m hra hc hcond]
          constructor
          · refine ⟨(execAttempt job env.name cancel lastT (env.atts attempt)).2.2.1, ?_⟩
            simp only [progressOf_append, retryNote_progress, List.nil_append]
            have herr : progressOf [Emission.error m] = [] := by simp [progressOf]
            rw [herr, List.append_nil]
            exact hA.2.2.1
          · intro tp htp
            simp only [progressOf_append, retryNote_progress, List.nil_append] at htp
            have herr : progressOf [Emission.error m] = [] := by simp [progressOf]
            rw [herr, List.append_nil] at htp
            exact hAg tp htp
      · rw [runLoop_step_cancel job env r attempt cancel lastT le m hra hc]
        constructor
        · refine ⟨(execAttempt job env.name cancel lastT (env.atts attempt)).2.2.1, ?_⟩
          simp only [progressOf_append, retryNote_progress, List.nil_append]
          have herr : progressOf [Emission.error ("Canceled by user")] = [] := by
            simp [progressOf]
          rw [herr, List.append_nil]
          exact hA.2.2.1
        · intro tp htp
          simp only [progressOf_append, retryNote_progress, List.nil_append] at htp
          have herr : progressOf [Emission.error ("Canceled by user")] = [] := by
            simp [progressOf]
          rw [herr, List.append_nil] at htp
          exact hAg tp htp

theorem countP_err_zero {l : List Emission} (h : ∀ e ∈ l, isErrB e = false) :
    l.countP isErrB = 0 := by
  refine List.countP_eq_zero.mpr ?_
  intro a ha
  simp [h a ha]

/-- A run whose every attempt fails with a retryable pipeline error and is
never cancelled performs exactly the remaining number of attempts, emits
exactly one `error`, and that terminal error carries the last attempt's
message. -/
theorem runLoop_retry (job : Job) (env : RunEnv) (msgs : ℕ → String)
    (hcl : ∀ k, cleanAttB (env.atts k) = true)
    (hf : ∀ k, (env.atts k).fail = some (msgs k))
    (hre : ∀ k, isRetryable (msgs k) = true) :
    ∀ (fuel attempt : ℕ) (lastT : ℚ) (le : Option String),
    1 ≤ fuel → attempt + fuel = job.max_retries →
    (runLoop job env fuel attempt false lastT le).2.1 = fuel
    ∧ (runLoop job env fuel attempt false lastT le).1.countP isErrB = 1
    ∧ (runLoop job env fuel attempt false lastT le).1.getLast?
        = some (Emission.error (msgs (job.max_retries - 1))) := by
  intro fuel
  induction fuel with
  | zero =>
    intro attempt lastT le h1
    cases h1
  | succ r ih =>
    intro attempt lastT le h1 h2
    have hA := execAttempt_facts job env.name false lastT (env.atts attempt)
    have hA6 := hA.2.2.2.2.2 rfl (hcl attempt)
    have hra : (execAttempt job env.name false lastT (env.atts attempt)).2.2.2.1
        = some (msgs attempt) := by rw [hA6.1, hf attempt]
    have hc := hA6.2.1
    have h0 : (retryNote job attempt ++ (execAttempt job env.name false lastT
        (env.atts attempt)).1).countP isErrB = 0 := by
      rw [List.countP_append]
      rw [countP_err_zero (fun e he => (retryNote_no_done_err job attempt e he).2),
        countP_err_zero hA.1]
    cases r with
    | zero =>
      have hcond : ¬(isRetryable (msgs attempt) = true ∧ attempt < job.max_retries - 1) := by
        rintro ⟨-, hlt⟩
        omega
      rw [runLoop_step_break job env 0 attempt false lastT le (msgs attempt) hra hc hcond]
      have hatt : attempt = job.max_retries - 1 := by omega
      refine ⟨rfl, ?_, ?_⟩
      · show (retryNote job attempt
            ++ (execAttempt job env.name false lastT (env.atts attempt)).1
            ++ [Emission.error (msgs attempt)]).countP isErrB = 1
        rw [List.countP_append, h0]
        simp [isErrB]
      · show (retryNote job attempt
            ++ (execAttempt job env.name false lastT (env.atts attempt)).1
            ++ [Emission.error (msgs attempt)]).getLast?
          = some (Emission.error (msgs (job.max_retries - 1)))
        rw [List.getLast?_concat, hatt]
    | succ r' =>
      have hcond : isRetryable (msgs attempt) = true ∧ attempt < job.max_retries - 1 := by
        exact ⟨hre attempt, by omega⟩
      rw [runLoop_step_retry job env (r' + 1) attempt false lastT le (msgs attempt) hra hc hcond]
      have hih := ih (attempt + 1)
        (execAttempt job env.name false lastT (env.atts attempt)).2.2.1 (some (msgs attempt))
        (by omega) (by omega)
      refine ⟨?_, ?_, ?_⟩
      · show (runLoop job env (r' + 1) (attempt + 1) false
            (execAttempt job env.name false lastT (env.atts attempt)).2.2.1
            (some (msgs attempt))).2.1 + 1 = r' + 1 + 1
        rw [hih.1]
      · show (retryNote job attempt
            ++ (execAttempt job env.name false lastT (env.atts attempt)).1
            ++ (runLoop job env (r' + 1) (attempt + 1) false
                  (execAttempt job env.name false lastT (env.atts attempt)).2.2.1
                  (some (msgs attempt))).1).countP isErrB = 1
        rw [List.countP_append, List.countP_append]
        rw [List.countP_append] at h0
        omega
      · show (retryNote job attempt
            ++ (execAttempt job env.name false lastT (env.atts attempt)).1
            ++ (runLoop job env (r' + 1) (attempt + 1) false
                  (execAttempt job env.name false lastT (env.atts attempt)).2.2.1
                  (some (msgs attempt))).1).getLast?
          = some (Emission.error (msgs (job.max_retries - 1)))
        rw [List.getLast?_append, hih.2.2]
        rfl

/-! ## Queue-processor invariants -/

/-- The running set plus the in-flight dispatch never exceed the limit. -/
theorem sched_card (N : ℕ) {s : SchedSt} (h : SchedReach N s) :
    s.running.card + s.dispatching.elim 0 (fun _ => 1) ≤ N := by
  induction h with
  | init => simp [schedInit]
  | step hr hs ih =>
    rename_i s0 s1
    cases hs with
    | submit j => simpa using ih
    | pop j rest h1 h2 h3 =>
      rw [h1] at ih
      simp at ih ⊢
      omega
    | start j h1 =>
      rw [h1] at ih
      simp at ih ⊢
      calc (insert j s0.running).card ≤ s0.running.card + 1 := Finset.card_insert_le _ _
        _ ≤ N := ih
    | finish j h1 =>
      simp at ih ⊢
      have hle := Finset.card_erase_le (a := j) (s := s0.running)
      omega

/-- Ghost-history invariant: the submission history is exactly the
admission history, then the in-flight dispatch, then the pending queue. -/
theorem sched_partition (N : ℕ) {s : SchedSt} (h : SchedReach N s) :
    s.submitted = s.started ++ s.dispatching.elim [] (fun j => [j]) ++ s.pending := by
  induction h with
  | init => rfl
  | step hr hs ih =>
    cases hs with
    | submit j =>
      simp only []
      rw [ih]
      simp
    | pop j rest h1 h2 h3 =>
      simp only []
      rw [ih, h1, h3]
      simp
    | start j h1 =>
      simp only []
      rw [ih, h1]
      simp
    | finish j h1 => simpa using ih

/-! ## Manager lemmas -/

/-- A counter-allocated identifier is fresh for the identifier map. -/
theorem lookup_fresh {m : Manager} (h : m.wf) : lookupJob m.jobs m.nextId = none := by
  unfold lookupJob
  rw [List.find?_eq_none.mpr]
  · rfl
  · intro x hx
    simp only [beq_iff_eq]
    exact Nat.ne_of_lt (h x hx)

/-! ## Claim theorems -/

/-- C1: at every instant the number of currently running jobs never exceeds
the configured concurrency limit: for every limit `N ≥ 1`, in every state
the queue processor can reach, at most `N` jobs are in the running set, and
every submitted job not yet admitted (or in flight between the pop and the
start) is still in the pending queue. -/
theorem claim_C1_concurrency_bound (N : ℕ) (s : SchedSt) (h1 : 1 ≤ N)
    (h2 : SchedReach N s) :
    s.running.card ≤ N
    ∧ s.submitted = s.started ++ s.dispatching.elim [] (fun j => [j]) ++ s.pending := by
  refine ⟨?_, sched_partition N h2⟩
  have hc := sched_card N h2
  omega

/-- Concrete reachable state: limit 1, submit job 1, submit job 2, pop,
start.  Exactly one job is running and the other is pending. -/
theorem exSched_reach : SchedReach 1 exSched := by
  have r0 : SchedReach 1 schedInit := SchedReach.init
  have r1 := SchedReach.step r0 (SchedStep.submit schedInit 1)
  have r2 := SchedReach.step r1 (SchedStep.submit _ 2)
  have r3 := SchedReach.step r2 (SchedStep.pop _ 1 [2] rfl (by decide) rfl)
  have r4 := SchedReach.step r3 (SchedStep.start _ 1 rfl)
  exact r4

theorem claim_C1_concurrency_bound_witness :
    1 ≤ 1 ∧ SchedReach 1 exSched ∧ exSched.running.card ≤ 1 :=
  ⟨le_refl 1, exSched_reach,
    (claim_C1_concurrency_bound 1 exSched (le_refl 1) exSched_reach).1⟩

/-- C2: jobs are admitted from the pending queue into the running set in
submission order: in every reachable state the admission history `started`
is an initial segment of the submission history `submitted` (so an
earlier-submitted job never starts after a later-submitted one), and the
rest of the submission history is the in-flight dispatch followed by the
FIFO pending queue. -/
theorem claim_C2_fifo_admission (N : ℕ) (s : SchedSt) (h : SchedReach N s) :
    s.started = s.submitted.take s.started.length
    ∧ s.submitted = s.started ++ s.dispatching.elim [] (fun j => [j]) ++ s.pending := by
  have hp := sched_partition N h
  refine ⟨?_, hp⟩
  rw [hp, List.append_assoc, List.take_left]

theorem claim_C2_fifo_admission_witness :
    SchedReach 1 exSched
    ∧ exSched.started = exSched.submitted.take exSched.started.length :=
  ⟨exSched_reach, (claim_C2_fifo_admission 1 exSched exSched_reach).1⟩

/-- C3: on every exit path of a job run — success, failure after retries,
cancellation, or an unexpected pipeline exception (all captured by the
universally quantified environment) — the `finally` cleanup removes the
job from the running set (exactly the single `erase`) and sets the
scheduler wake event; consequently a job that has reached its terminal
state is absent from the running set. -/
theorem claim_C3_cleanup_invariant (job : Job) (env : RunEnv) (cancel0 : Bool)
    (active : Finset ℕ) :
    job.id ∉ (runJob job env cancel0 active).active
    ∧ (runJob job env cancel0 active).wake = true
    ∧ (runJob job env cancel0 active).active = active.erase job.id :=
  ⟨Finset.not_mem_erase _ _, rfl, rfl⟩

/-- C4: for a job whose every execution attempt raises a retryable error
(one whose lowercased text contains a retryable keyword), the runner makes
exactly `max_retries` attempts and then emits exactly one `error`
notification carrying the last error's message; a non-retryable error on
the first attempt ends the loop immediately after one attempt with its own
message, likewise as the run's only `error`. -/
theorem claim_C4_retry_ceiling (job : Job) (env : RunEnv) (active : Finset ℕ)
    (msgs : ℕ → String) (h1 : 1 ≤ job.max_retries)
    (hcl : ∀ k, cleanAttB (env.atts k) = true)
    (hf : ∀ k, (env.atts k).fail = some (msgs k)) :
    ((∀ k, isRetryable (msgs k) = true) →
      (runJob job env false active).attemptsMade = job.max_retries
      ∧ (runJob job env false active).ems.countP isErrB = 1
      ∧ (runJob job env false active).ems.getLast?
          = some (Emission.error (msgs (job.max_retries - 1))))
    ∧ (isRetryable (msgs 0) = false →
      (runJob job env false active).attemptsMade = 1
      ∧ (runJob job env false active).ems.countP isErrB = 1
      ∧ (runJob job env false active).ems.getLast? = some (Emission.error (msgs 0))) := by
  constructor
  · intro hre
    have hloop := runLoop_retry job env msgs hcl hf hre job.max_retries 0
      job.last_progress_time none h1 (by omega)
    refine ⟨hloop.1, ?_, ?_⟩
    · show ([Emission.status ("Starting…"),
          Emission.progress env.t0 0 ("--") ("--:--") ("--")]
          ++ (runLoop job env job.max_retries 0 false job.last_progress_time none).1).countP
            isErrB = 1
      rw [List.countP_append, hloop.2.1]
      simp [List.countP_cons, isErrB]
    · show ([Emission.status ("Starting…"),
          Emission.progress env.t0 0 ("--") ("--:--") ("--")]
          ++ (runLoop job env job.max_retries 0 false job.last_progress_time none).1).getLast?
        = some (Emission.error (msgs (job.max_retries - 1)))
      rw [List.getLast?_append, hloop.2.2]
      rfl
  · intro hnr
    obtain ⟨r, hr⟩ : ∃ r, job.max_retries = r + 1 := ⟨job.max_retries - 1, by omega⟩
    have hA := execAttempt_facts job env.name false job.last_progress_time (env.atts 0)
    have hA6 := hA.2.2.2.2.2 rfl (hcl 0)
    have hra : (execAttempt job env.name false job.last_progress_time (env.atts 0)).2.2.2.1
        = some (msgs 0) := by rw [hA6.1, hf 0]
    have hcond : ¬(isRetryable (msgs 0) = true ∧ 0 < job.max_retries - 1) := by
      rintro ⟨hx, -⟩
      rw [hnr] at hx
      cases hx
    have hstep := runLoop_step_break job env r 0 false job.last_progress_time none
      (msgs 0) hra hA6.2.1 hcond
    refine ⟨?_, ?_, ?_⟩
    · show (runLoop job env job.max_retries 0 false job.last_progress_time none).2.1 = 1
      rw [hr, hstep]
    · show ([Emission.status ("Starting…"),
          Emission.progress env.t0 0 ("--") ("--:--") ("--")]
          ++ (runLoop job env job.max_retries 0 false job.last_progress_time none).1).countP
            isErrB = 1
      rw [hr, List.countP_append, hstep]
      have h0 : (retryNote job 0
          ++ (execAttempt job env.name false job.last_progress_time (env.atts 0)).1).countP
            isErrB = 0 := by
        rw [List.countP_append]
        rw [countP_err_zero (fun e he => (retryNote_no_done_err job 0 e he).2),
          countP_err_zero hA.1]
      show ([Emission.status ("Starting…"),
          Emission.progress env.t0 0 ("--") ("--:--") ("--")]).countP isErrB
        + (retryNote job 0
            ++ (execAttempt job env.name false job.last_progress_time (env.atts 0)).1
            ++ [Emission.error (msgs 0)]).countP isErrB = 1
      rw [List.countP_append] at h0
      simp [List.countP_cons, isErrB]
      omega
    · show ([Emission.status ("Starting…"),
          Emission.progress env.t0 0 ("--") ("--:--") ("--")]
          ++ (runLoop job env job.max_retries 0 false job.last_progress_time none).1).getLast?
        = some (Emission.error (msgs 0))
      rw [hr, List.getLast?_append, hstep]
      show ((retryNote job 0
          ++ (execAttempt job env.name false job.last_progress_time (env.atts 0)).1
          ++ [Emission.error (msgs 0)]).getLast?).or _ = some (Emission.error (msgs 0))
      rw [List.getLast?_concat]
      rfl

theorem claim_C4_retry_ceiling_witness :
    1 ≤ exJob.max_retries
    ∧ (∀ k, cleanAttB (exEnv4.atts k) = true)
    ∧ (∀ k, (exEnv4.atts k).fail = some ("Connection timeout"))
    ∧ (∀ k : ℕ, isRetryable ("Connection timeout") = true)
    ∧ (runJob exJob exEnv4 false ∅).attemptsMade = exJob.max_retries
    ∧ (runJob exJob exEnv4 false ∅).ems.countP isErrB = 1 := by
  have hc1 : cleanAttB (exEnv4.atts 0) = true := by decide
  have hcl : ∀ k, cleanAttB (exEnv4.atts k) = true := fun _ => hc1
  have hf1 : (exEnv4.atts 0).fail = some ("Connection timeout") := by decide
  have hf : ∀ k, (exEnv4.atts k).fail = some ("Connection timeout") := fun _ => hf1
  have hre1 : isRetryable ("Connection timeout") = true := by decide
  have hre : ∀ k : ℕ, isRetryable ("Connection timeout") = true := fun _ => hre1
  have h := (claim_C4_retry_ceiling exJob exEnv4 ∅ (fun _ => "Connection timeout")
    (by decide) hcl hf).1 (fun k => hre k)
  exact ⟨by decide, hcl, hf, hre, h.1, h.2.1⟩

/-- C5 counterexample: `request_cancel` arrives after the attempt's last
progress-hook invocation; no cooperative checkpoint runs again, so the
download completes and `done` is emitted after the cancel request, with no
`error("Canceled by user")` ever emitted — refuting the claim that once
`request_cancel()` is called the job reaches the cancellation error and
never emits a subsequent `done`. -/
theorem claim_C5_cancel_counterexample :
    PipeEvt.cancelReq ∈ (exEnvC5.atts 0).evts
    ∧ (runJob exJob exEnvC5 false ∅).ems.getLast? = some (Emission.done ("dl/song.mp3"))
    ∧ (runJob exJob exEnvC5 false ∅).ems.countP isErrB = 0 := by
  decide

/-- C5 amended: once a cooperative checkpoint (the hook's entry check, a
pause-poll tick, or the failure handler) observes the cancel flag set, the
run terminates with `error("Canceled by user")` as its final emission, is
never retried afterwards, and emits no `done`; a cancel request that no
checkpoint ever observes does not prevent a successful `done`. -/
theorem claim_C5_cancel_observed_terminal (job : Job) (env : RunEnv) (cancel0 : Bool)
    (active : Finset ℕ) (h : (runJob job env cancel0 active).saw = true) :
    (runJob job env cancel0 active).ems.getLast? = some (Emission.error ("Canceled by user"))
    ∧ ∀ p, Emission.done p ∉ (runJob job env cancel0 active).ems := by
  have hl := runLoop_saw job env job.max_retries 0 cancel0 job.last_progress_time none h
  constructor
  · show ([Emission.status ("Starting…"),
        Emission.progress env.t0 0 ("--") ("--:--") ("--")]
        ++ (runLoop job env job.max_retries 0 cancel0 job.last_progress_time none).1).getLast?
      = some (Emission.error ("Canceled by user"))
    rw [List.getLast?_append, hl.1]
    rfl
  · intro p hp
    have hp' : Emission.done p ∈ [Emission.status ("Starting…"),
        Emission.progress env.t0 0 ("--") ("--:--") ("--")]
        ++ (runLoop job env job.max_retries 0 cancel0 job.last_progress_time none).1 := hp
    rcases List.mem_append.mp hp' with hx | hx
    · simp at hx
    · exact hl.2 p hx

theorem claim_C5_cancel_observed_terminal_witness :
    (runJob exJob exEnvW5 true ∅).saw = true
    ∧ (runJob exJob exEnvW5 true ∅).ems.getLast?
        = some (Emission.error ("Canceled by user")) :=
  ⟨by decide, (claim_C5_cancel_observed_terminal exJob exEnvW5 true ∅ (by decide)).1⟩

/-- C6 counterexample: a `downloading` event reporting 1500 of 1000 bytes
0.1 s after the run's initial zero-progress emission yields an emitted
percentage of 150 (outside `[0,100]`, because the code computes
`int(downloaded * 100 / total)` without clamping) at a timestamp only
0.1 s (< the 0.25 s throttle) after the previous progress emission (the
initial emission is not subject to the throttle). -/
theorem claim_C6_progress_counterexample :
    progressOf (runJob exJob exEnv6 false ∅).ems = [(1000, 0), (10001/10, 150)]
    ∧ ¬((150 : ℤ) ≤ 100)
    ∧ (10001/10 : ℚ) - 1000 < 1/4 := by
  decide

/-- C6 amended: when every `downloading` event reports coherent byte
counts (non-negative, downloaded ≤ total when a total is reported), every
emitted percentage — computed as `int(downloaded * 100 / total)`, 0 when
the total is unknown — lies in `[0,100]`; and all hook-driven progress
emissions of a run (everything after the run's initial unthrottled
zero-progress emission) are spaced at least 0.25 s apart. -/
theorem claim_C6_progress_bounds_throttle (job : Job) (env : RunEnv) (cancel0 : Bool)
    (active : Finset ℕ) (hg : ∀ k, attGoodB (env.atts k) = true) :
    (∀ tp ∈ progressOf (runJob job env cancel0 active).ems, 0 ≤ tp.2 ∧ tp.2 ≤ 100)
    ∧ List.Chain' (fun a b : ℚ => a + 1/4 ≤ b)
        (((progressOf (runJob job env cancel0 active).ems).map Prod.fst).drop 1) := by
  have hl := runLoop_throttle job env hg job.max_retries 0 cancel0 job.last_progress_time none
  have hsplit : progressOf (runJob job env cancel0 active).ems
      = (env.t0, 0)
        :: progressOf (runLoop job env job.max_retries 0 cancel0 job.last_progress_time none).1 := by
    show progressOf ([Emission.status ("Starting…"),
        Emission.progress env.t0 0 ("--") ("--:--") ("--")]
        ++ (runLoop job env job.max_retries 0 cancel0 job.last_progress_time none).1) = _
    rw [progressOf_append]
    simp [progressOf]
  constructor
  · intro tp htp
    rw [hsplit] at htp
    rcases List.mem_cons.mp htp with rfl | htp
    · exact ⟨le_refl 0, by norm_num⟩
    · exact hl.2 tp htp
  · rw [hsplit]
    simp only [List.map_cons, List.drop_succ_cons, List.drop_zero]
    obtain ⟨M, hM⟩ := hl.1
    exact throttled_chain hM

theorem claim_C6_progress_bounds_throttle_witness :
    (∀ k, attGoodB (exEnv6w.atts k) = true)
    ∧ (∀ tp ∈ progressOf (runJob exJob exEnv6w false ∅).ems, 0 ≤ tp.2 ∧ tp.2 ≤ 100) := by
  have hg1 : attGoodB (exEnv6w.atts 0) = true := by decide
  have hg : ∀ k, attGoodB (exEnv6w.atts k) = true := fun _ => hg1
  exact ⟨hg, (claim_C6_progress_bounds_throttle exJob exEnv6w false ∅ hg).1⟩

/-- C7 counterexample: a request missing a source URL is not rejected —
`create_job` performs no validation, returns normally, registers the job,
and leaves its URL absent (`None`); failure surfaces only later, at
download time.  This refutes the claim that `create_job` fails on a
request missing a source URL. -/
theorem claim_C7_create_job_counterexample :
    (create_job exM0 emptyItem ("mp3") 192 none none).1.url = none
    ∧ lookupJob (create_job exM0 emptyItem ("mp3") 192 none none).2.jobs
        (create_job exM0 emptyItem ("mp3") 192 none none).1.id
      = some (create_job exM0 emptyItem ("mp3") 192 none none).1
    ∧ (create_job exM0 emptyItem ("mp3") 192 none none).1.video_quality = "best" := by
  decide

/-- C7 amended: `create_job` never fails — for every request, also one
missing a source URL, it defaults omitted quality fields to `"best"`,
captures the current download directory, allocates a fresh identity not in
the identifier map, registers the job there, and returns it (preserving
the freshness invariant). -/
theorem claim_C7_create_job_total (m : Manager) (item : Item) (fmt : String) (bk : ℤ)
    (vq aq : Option String) (hwf : m.wf) :
    (create_job m item fmt bk vq aq).1.id = m.nextId
    ∧ lookupJob m.jobs (create_job m item fmt bk vq aq).1.id = none
    ∧ lookupJob (create_job m item fmt bk vq aq).2.jobs (create_job m item fmt bk vq aq).1.id
        = some (create_job m item fmt bk vq aq).1
    ∧ (create_job m item fmt bk vq aq).1.video_quality = vq.getD ("best")
    ∧ (create_job m item fmt bk vq aq).1.audio_quality = aq.getD ("best")
    ∧ (create_job m item fmt bk vq aq).1.outdir = m.download_dir
    ∧ (create_job m item fmt bk vq aq).2.wf := by
  refine ⟨rfl, lookup_fresh hwf, ?_, rfl, rfl, rfl, ?_⟩
  · show lookupJob ((m.nextId, (create_job m item fmt bk vq aq).1) :: m.jobs) m.nextId
      = some (create_job m item fmt bk vq aq).1
    unfold lookupJob
    rw [List.find?_cons_of_pos _ (by simp)]
    rfl
  · intro p hp
    rcases List.mem_cons.mp hp with rfl | hp
    · show m.nextId < m.nextId + 1
      omega
    · have := hwf p hp
      show p.1 < m.nextId + 1
      omega

theorem claim_C7_create_job_total_witness :
    exM0.wf
    ∧ lookupJob exM0.jobs (create_job exM0 emptyItem ("mp3") 192 none none).1.id = none := by
  have hwf : exM0.wf := by
    intro p hp
    cases hp
  exact ⟨hwf, (claim_C7_create_job_total exM0 emptyItem ("mp3") 192 none none hwf).2.1⟩

/-- C8 counterexample: a job created while the directory was `"A"` and
started only after `set_download_dir("B")` still writes under `"A"` — the
output directory is captured at job-creation time (line 138, before the
lock is taken), not read when the job starts.  This refutes the claim that
`set_download_dir` takes effect for every job that has not yet started. -/
theorem claim_C8_download_dir_counterexample :
    (set_download_dir (create_job (mkManager ("A") 4) emptyItem ("mp3") 192 none none).2
      ("B")).download_dir = "B"
    ∧ (create_job (mkManager ("A") 4) emptyItem ("mp3") 192 none none).1.outdir = "A"
    ∧ (runJob (create_job (mkManager ("A") 4) emptyItem ("mp3") 192 none none).1 exEnv8
        false ∅).ems.getLast? = some (Emission.done ("A/song.mp3"))
    ∧ ("A" : String) ≠ "B" := by
  decide

/-- C8 amended: `set_download_dir` takes effect for jobs created after the
call: `create_job` captures the manager's current directory into the job,
a job created before the call keeps the directory current at its creation
even if it starts later, and every `done` a run emits carries the final
path rooted at the job's captured directory. -/
theorem claim_C8_download_dir_at_creation (m : Manager) (p : String) (item : Item)
    (fmt : String) (bk : ℤ) (vq aq : Option String) :
    (create_job (set_download_dir m p) item fmt bk vq aq).1.outdir = p
    ∧ (create_job m item fmt bk vq aq).1.outdir = m.download_dir
    ∧ (∀ (job : Job) (env : RunEnv) (c0 : Bool) (a : Finset ℕ) (pth : String),
        Emission.done pth ∈ (runJob job env c0 a).ems → pth = finalPath job env.name) := by
  refine ⟨rfl, rfl, ?_⟩
  intro job env c0 a pth hp
  have hp' : Emission.done pth ∈ [Emission.status ("Starting…"),
      Emission.progress env.t0 0 ("--") ("--:--") ("--")]
      ++ (runLoop job env job.max_retries 0 c0 job.last_progress_time none).1 := hp
  rcases List.mem_append.mp hp' with hx | hx
  · simp at hx
  · exact runLoop_done job env job.max_retries 0 c0 job.last_progress_time none pth hx

theorem claim_C8_download_dir_at_creation_witness :
    Emission.done ("dl/song.mp3") ∈ (runJob exJob exEnvC5 false ∅).ems
    ∧ ("dl/song.mp3" : String) = finalPath exJob exEnvC5.name :=
  ⟨by decide,
    (claim_C8_download_dir_at_creation exM0 ("B") emptyItem ("mp3") 192 none none).2.2
      exJob exEnvC5 false ∅ ("dl/song.mp3") (by decide)⟩

/-- C9 counterexample: an exception raised inside the callback's own
processing (a slot connected to the progress signal) whose text merely
mentions "canceled" propagates out of the hook and aborts the pipeline,
although it is not the user-cancellation exception — the handler's test is
the substring `"canceled" in str(e).lower()`, not the exception's
identity.  This refutes "propagating ... exactly when it represents a
user cancellation". -/
theorem claim_C9_hook_error_counterexample :
    exFaultCtx.fault = some ("Slot canceled unexpectedly")
    ∧ (onHook false 0 exFaultCtx).raised = some ("Slot canceled unexpectedly")
    ∧ ("Slot canceled unexpectedly" : String) ≠ "User canceled" := by
  decide

/-- C9 amended: an exception propagates out of the hook exactly when its
lowercased text contains `"canceled"`: everything the hook lets out
satisfies the substring test; an internal exception failing the test is
swallowed and logged, and the pipeline continues; and an observed
user-cancellation always propagates as `error("User canceled")`. -/
theorem claim_C9_hook_error_policy (cancel : Bool) (lastT : ℚ) (c : HookCtx) :
    (∀ m, (onHook cancel lastT c).raised = some m →
      strContains (strLower m) ("canceled") = true)
    ∧ (∀ m, (hookBody cancel lastT c).2.2.2.1 = some m →
        strContains (strLower m) ("canceled") = false →
        (onHook cancel lastT c).raised = none ∧ (onHook cancel lastT c).logged = some m)
    ∧ (cancel = true → (onHook cancel lastT c).raised = some ("User canceled")) := by
  refine ⟨(onHook_facts cancel lastT c).2.2.2.1, ?_, ?_⟩
  · intro m hm hcm
    constructor
    · show (onHook cancel lastT c).raised = none
      simp [onHook, hm, hcm]
    · show (onHook cancel lastT c).logged = some m
      simp [onHook, hm, hcm]
  · intro hc
    subst hc
    simp [onHook, hookBody, contains_user_canceled]

theorem claim_C9_hook_error_policy_witness :
    (hookBody false 0 exFaultCtx2).2.2.2.1 = some ("boom")
    ∧ strContains (strLower ("boom")) ("canceled") = false
    ∧ (onHook false 0 exFaultCtx2).raised = none
    ∧ (onHook false 0 exFaultCtx2).logged = some ("boom") := by
  refine ⟨by decide, by decide, ?_, ?_⟩
  · exact ((claim_C9_hook_error_policy false 0 exFaultCtx2).2.1 ("boom") (by decide)
      (by decide)).1
  · exact ((claim_C9_hook_error_policy false 0 exFaultCtx2).2.1 ("boom") (by decide)
      (by decide)).2

/-- The scaling loop of `_fmt_bytes` lands exactly on the unit the
specification describes: the largest 1024-based unit keeping the mantissa
below 1024, capped at index 4 (TB). -/
theorem scaleLoop_spec (n : ℚ) (hn : 0 < n) :
    scaleLoop n 0 = (n / 1024 ^ specUnitIdx n, specUnitIdx n) := by
  have h1024 : (0:ℚ) < 1024 := by norm_num
  unfold scaleLoop specUnitIdx
  by_cases h1 : n < 1024
  · rw [if_pos h1]
    have hx : scaleGo (4 - 0) n 0 = (n, 0) := by
      simp [scaleGo, not_le.mpr h1]
    rw [hx]
    norm_num
  · rw [if_neg h1]
    have ha : (1024:ℚ) ≤ n := not_lt.mp h1
    by_cases h2 : n < 1024 ^ 2
    · rw [if_pos h2]
      have hb : ¬ ((1024:ℚ) ≤ n / 1024) := by
        rw [not_le, div_lt_iff h1024]
        nlinarith
      have hx : scaleGo (4 - 0) n 0 = (n / 1024, 1) := by
        simp [scaleGo, ha, hb]
      rw [hx]
      norm_num
    · rw [if_neg h2]
      have h2' : (1024:ℚ) ^ 2 ≤ n := not_lt.mp h2
      have ha2 : (1024:ℚ) ≤ n / 1024 := by
        rw [le_div_iff h1024]
        nlinarith
      by_cases h3 : n < 1024 ^ 3
      · rw [if_pos h3]
        have hb : ¬ ((1024:ℚ) ≤ n / 1024 / 1024) := by
          rw [not_le, div_div, div_lt_iff (by norm_num : (0:ℚ) < 1024 * 1024)]
          nlinarith
        have hx : scaleGo (4 - 0) n 0 = (n / 1024 / 1024, 2) := by
          simp [scaleGo, ha, ha2, hb]
        rw [hx, div_div]
        norm_num
      · rw [if_neg h3]
        have h3' : (1024:ℚ) ^ 3 ≤ n := not_lt.mp h3
        have ha3 : (1024:ℚ) ≤ n / 1024 / 1024 := by
          rw [div_div, le_div_iff (by norm_num : (0:ℚ) < 1024 * 1024)]
          nlinarith
        by_cases h4 : n < 1024 ^ 4
        · rw [if_pos h4]
          have hb : ¬ ((1024:ℚ) ≤ n / 1024 / 1024 / 1024) := by
            rw [not_le, div_div, div_div,
              div_lt_iff (by norm_num : (0:ℚ) < 1024 * (1024 * 1024))]
            nlinarith
          have hx : scaleGo (4 - 0) n 0 = (n / 1024 / 1024 / 1024, 3) := by
            simp [scaleGo, ha, ha2, ha3, hb]
          rw [hx, div_div, div_div]
          norm_num
        · rw [if_neg h4]
          have h4' : (1024:ℚ) ^ 4 ≤ n := not_lt.mp h4
          have ha4 : (1024:ℚ) ≤ n / 1024 / 1024 / 1024 := by
            rw [div_div, div_div, le_div_iff (by norm_num : (0:ℚ) < 1024 * (1024 * 1024))]
            nlinarith
          have hx : scaleGo (4 - 0) n 0 = (n / 1024 / 1024 / 1024 / 1024, 4) := by
            simp [scaleGo, ha, ha2, ha3, ha4]
          rw [hx, div_div, div_div, div_div]
          norm_num

/-- C10: `_fmt_bytes` returns the empty string when the byte count is
`None` or `0` — so the progress notification's size field is blank and the
speed falls back to `"--"`, as the concrete hook invocation with an
unknown total shows — and for every positive count it returns the count
scaled by 1024-based units with one decimal place, choosing the largest
unit keeping the mantissa below 1024, capped at TB. -/
theorem claim_C10_fmt_bytes (n : ℚ) (hn : 0 < n) :
    _fmt_bytes none = ""
    ∧ _fmt_bytes (some 0) = ""
    ∧ _fmt_bytes (some n)
        = fmt1 (n / 1024 ^ specUnitIdx n) ++ " " ++ unitName (specUnitIdx n)
    ∧ (onHook false 0 (exCtx 1 (some 500) none)).ems
        = [Emission.progress 1 0 ("--") ("--:--") ("")] := by
  refine ⟨rfl, rfl, ?_, by decide⟩
  show (if n = 0 then "" else
      fmt1 (scaleLoop n 0).1 ++ " " ++ unitName (scaleLoop n 0).2)
    = fmt1 (n / 1024 ^ specUnitIdx n) ++ " " ++ unitName (specUnitIdx n)
  rw [if_neg (ne_of_gt hn), scaleLoop_spec n hn]

theorem claim_C10_fmt_bytes_witness :
    (0:ℚ) < 1536 ∧ _fmt_bytes (some 1536) = "1.5 KB" := by
  refine ⟨by norm_num, ?_⟩
  rw [(claim_C10_fmt_bytes 1536 (by norm_num)).2.2.1]
  decide
